import Mathlib

/-!
Verification development for the zoon-go codec (ZOON - Zero Overhead Object
Notation).  The Go sources are shallowly embedded: `encode.go`'s tabular and
inline encoders, `decode.go`'s tabular and inline decoders, and the public
entry points of `zoon.go`.  Go strings are modelled as Lean `String`s whose
operations are implemented over `List Char`, Go `int` as `Int` (with the
int64 clamping of `strconv.Atoi` made explicit), and Go's reflection-driven
value model as the inductive types `GoType` / `GoVal` below.
-/

set_option maxRecDepth 10000

/-! ## Character / string toolkit (Go `strings`, `bytes`, `unicode` helpers) -/

/-- Whitespace as recognised by Go's `unicode.IsSpace` (ASCII part plus the
    two Latin-1 spaces; other Unicode space runes do not occur in this
    development). -/
def isGoSpace (c : Char) : Bool :=
  c = ' ' || c = '\t' || c = '\n' || c = '\x0b' || c = '\x0c' || c = '\r' ||
  c = '\x85' || c = '\xa0'

def isDigitCh (c : Char) : Bool := '0' ≤ c && c ≤ '9'

/-- `strings.ReplaceAll s "_" " "`. -/
def underscoreToSpace (s : String) : String :=
  ⟨s.data.map (fun c => if c = '_' then ' ' else c)⟩

/-- `strings.ReplaceAll s " " "_"`. -/
def spaceToUnderscore (s : String) : String :=
  ⟨s.data.map (fun c => if c = ' ' then '_' else c)⟩

/-- `strings.ReplaceAll s "\"" "\\\""` (escape double quotes). -/
def escapeQuotes (s : String) : String :=
  ⟨s.data.foldr (fun c acc => if c = '"' then '\\' :: '"' :: acc else c :: acc) []⟩

/-- `strings.TrimSpace` on a character list. -/
def chTrim (cs : List Char) : List Char :=
  ((cs.dropWhile isGoSpace).reverse.dropWhile isGoSpace).reverse

def goTrim (s : String) : String := ⟨chTrim s.data⟩

/-- Split on `'\n'`, like `bufio.Scanner` line splitting composed with the
    per-line `TrimSpace` done by the decoder (which also removes any `'\r'`). -/
def chSplitNl : List Char → List (List Char)
  | [] => [[]]
  | '\n' :: rest => [] :: chSplitNl rest
  | c :: rest =>
    match chSplitNl rest with
    | l :: ls => (c :: l) :: ls
    | [] => [[c]]

def goLines (s : String) : List String := (chSplitNl s.data).map (⟨·⟩)

theorem length_dropWhile_le (p : Char → Bool) (cs : List Char) :
    (cs.dropWhile p).length ≤ cs.length := by
  induction cs with
  | nil => simp [List.dropWhile]
  | cons c rest ih =>
    by_cases h : p c
    · simp [List.dropWhile, h]; omega
    · simp [List.dropWhile, h]

/-- One step of `strings.Fields`: a non-space character `c` either starts
    a fresh token (next character is whitespace or input ends) or extends
    the first token of the remainder's fields. -/
def chFieldsStep (c : Char) (rest : List Char) (r : List (List Char)) : List (List Char) :=
  match rest, r with
  | d :: _, t :: ts => if isGoSpace d then [c] :: t :: ts else (c :: t) :: ts
  | _, _ => [[c]]

/-- `strings.Fields`: split around runs of whitespace. -/
def chFields : List Char → List (List Char)
  | [] => []
  | c :: rest =>
    if isGoSpace c then chFields rest else chFieldsStep c rest (chFields rest)

def goFields (s : String) : List String := (chFields s.data).map (⟨·⟩)

/-- `strings.Join parts sep` for a single-space separator. -/
def joinSp (parts : List String) : String :=
  match parts with
  | [] => ""
  | p :: rest => rest.foldl (fun acc x => acc ++ " " ++ x) p

/-- `strings.Join parts "|"`. -/
def joinBar (parts : List String) : String :=
  match parts with
  | [] => ""
  | p :: rest => rest.foldl (fun acc x => acc ++ "|" ++ x) p

/-- `strings.Split s "|"` on a character list. -/
def chSplitBar : List Char → List (List Char)
  | [] => [[]]
  | '|' :: rest => [] :: chSplitBar rest
  | c :: rest =>
    match chSplitBar rest with
    | l :: ls => (c :: l) :: ls
    | [] => [[c]]

def splitBar (s : String) : List String := (chSplitBar s.data).map (⟨·⟩)

/-- `strings.Split s "."` on a character list. -/
def chSplitDot : List Char → List (List Char)
  | [] => [[]]
  | '.' :: rest => [] :: chSplitDot rest
  | c :: rest =>
    match chSplitDot rest with
    | l :: ls => (c :: l) :: ls
    | [] => [[c]]

def splitDot (s : String) : List String := (chSplitDot s.data).map (⟨·⟩)

/-- `strings.Split s ","` on a character list (struct tag parsing). -/
def chSplitComma : List Char → List (List Char)
  | [] => [[]]
  | ',' :: rest => [] :: chSplitComma rest
  | c :: rest =>
    match chSplitComma rest with
    | l :: ls => (c :: l) :: ls
    | [] => [[c]]

/-- `strings.Split tag ","` head element (`parts[0]`). -/
def tagHead (s : String) : String :=
  match chSplitComma s.data with
  | l :: _ => ⟨l⟩
  | [] => ""

/-- `strings.HasPrefix`. -/
def chStartsWith : List Char → List Char → Bool
  | _, [] => true
  | [], _ :: _ => false
  | c :: cs, p :: ps => c = p && chStartsWith cs ps

def goHasPfx (s p : String) : Bool := chStartsWith s.data p.data

/-- `strings.EqualFold`, restricted to ASCII case folding (sufficient for the
    identifiers occurring in this development). -/
def eqFold (a b : String) : Bool :=
  a.data.map Char.toLower = b.data.map Char.toLower

/-- `strings.Index s "="`: index of the first `'='`, or none. -/
def chIndexOf (c : Char) : List Char → Option Nat
  | [] => none
  | x :: rest =>
    if x = c then some 0
    else (chIndexOf c rest).map (· + 1)

/-- `strings.IndexAny s ":=!"`: index of the first separator character. -/
def chIndexSep : List Char → Option Nat
  | [] => none
  | x :: rest =>
    if x = ':' || x = '=' || x = '!' then some 0
    else (chIndexSep rest).map (· + 1)

/-- Stable insertion sort with a boolean `le`; used to model `sort.Strings`
    and the deterministic `sort.Slice` calls of the encoder. -/
def insSorted (le : α → α → Bool) (x : α) : List α → List α
  | [] => [x]
  | y :: rest => if le x y then x :: y :: rest else y :: insSorted le x rest

def insSort (le : α → α → Bool) : List α → List α
  | [] => []
  | x :: rest => insSorted le x (insSort le rest)

/-- Byte-wise lexicographic comparison, as Go's `<` on strings (ASCII
    agrees character-wise). -/
def chLe : List Char → List Char → Bool
  | [], _ => true
  | _ :: _, [] => false
  | a :: as, b :: bs => if a = b then chLe as bs else decide (a.toNat < b.toNat)

def strLe (a b : String) : Bool := chLe a.data b.data

/-! ## Go `strconv.Atoi` and decimal rendering (`fmt.Sprintf "%d"`) -/

def digitCharOf (n : Nat) : Char := Char.ofNat ('0'.toNat + n)

def natToDigitsAux : Nat → Nat → List Char → List Char
  | 0, _, acc => acc
  | _ + 1, 0, acc => acc
  | fuel + 1, n, acc => natToDigitsAux fuel (n / 10) (digitCharOf (n % 10) :: acc)

/-- Decimal rendering of a natural number, as produced by Go's `%d` (the
    fuel argument `n` bounds the digit count and never runs out). -/
def natToDecimal (n : Nat) : String :=
  if n = 0 then "0" else ⟨natToDigitsAux n n []⟩

/-- Decimal rendering of an integer, as produced by Go's `%d`. -/
def intToDecimal (i : Int) : String :=
  if i < 0 then "-" ++ natToDecimal i.natAbs else natToDecimal i.natAbs

def digitVal (c : Char) : Nat := c.toNat - '0'.toNat

/-- Value of a nonempty all-digit character list, or `none`. -/
def parseDigits (cs : List Char) : Option Nat :=
  if cs = [] then none
  else if cs.all isDigitCh then some (cs.foldl (fun a c => 10 * a + digitVal c) 0)
  else none

/-- Syntactic part of `strconv.Atoi`: optional sign followed by a nonempty
    run of decimal digits. -/
def atoiSyntax (s : String) : Option Int :=
  match s.data with
  | '+' :: rest => (parseDigits rest).map Int.ofNat
  | '-' :: rest => (parseDigits rest).map (fun n => -(n : Int))
  | cs => (parseDigits cs).map Int.ofNat

def maxInt64 : Int := 2 ^ 63 - 1
def minInt64 : Int := -(2 ^ 63)

/-- `strconv.Atoi`: returns (value, err == nil).  Syntax errors yield 0;
    out-of-range values are clamped to the int64 bounds with err ≠ nil. -/
def goAtoi (s : String) : Int × Bool :=
  match atoiSyntax s with
  | none => (0, false)
  | some n =>
    if n > maxInt64 then (maxInt64, false)
    else if n < minInt64 then (minInt64, false)
    else (n, true)

/-! ## Primitive values produced by `parsePrimitive` (decode.go:587-611) -/

inductive Prim where
  | pnull
  | pint (n : Int)
  | pbool (b : Bool)
  | pstr (s : String)
deriving DecidableEq

/-- decode.go:587-611 `parsePrimitive(s, typ)`. -/
def parsePrimitive (s typ : String) : Prim :=
  if s = "~" then .pnull
  else if typ = "i" || typ = "i+" then .pint (goAtoi s).1
  else if typ = "b" then .pbool (s = "1" || s = "y" || s = "true")
  else if s = "y" || s = "n" then .pbool (s = "y")
  else if (goAtoi s).2 then .pint (goAtoi s).1
  else if s = "true" || s = "false" then .pbool (s = "true")
  else .pstr (underscoreToSpace s)

example : parsePrimitive "~" "b" = .pnull := by decide
example : parsePrimitive "abc" "i" = .pint 0 := by decide
example : parsePrimitive "-42" "i+" = .pint (-42) := by decide
example : parsePrimitive "y" "b" = .pbool true := by decide
example : parsePrimitive "0" "b" = .pbool false := by decide
example : parsePrimitive "y" "auto" = .pbool true := by decide
example : parsePrimitive "n" "auto" = .pbool false := by decide
example : parsePrimitive "17" "auto" = .pint 17 := by decide
example : parsePrimitive "false" "auto" = .pbool false := by decide
example : parsePrimitive "a_b" "auto" = .pstr "a b" := by decide

/-! ## Value model: Go reflection view of host values

A `GoVal` is the shape of a host value as the engine's reflection code sees
it; a `GoType` is the static type used on the decode side (zero values,
convertibility).  Struct fields carry `(fieldName, zoonTag, jsonTag, ·)`
mirroring `reflect.StructField` with its two recognised tags. -/

inductive GoType where
  | tInt
  | tBool
  | tString
  | tAny
  | tPtr (elem : GoType)
  | tSlice (elem : GoType)
  | tStruct (fields : List (String × String × String × GoType))
  | tMap (elem : GoType)

inductive GoVal where
  | vNilPtr
  | vInt (n : Int)
  | vBool (b : Bool)
  | vString (s : String)
  | vPtr (v : GoVal)
  | vStruct (fields : List (String × String × String × GoVal))
  | vMap (entries : List (String × GoVal))
  | vArr (elems : List GoVal)

inductive GoKind where
  | kInvalid
  | kInt
  | kBool
  | kString
  | kPtr
  | kStructK
  | kMapK
  | kSlice
deriving DecidableEq

mutual
/-- Structural equality of values, modelling Go `==` on comparable
    interfaces with the `reflect.DeepEqual` fallback used by the encoder. -/
def goValBEq : GoVal → GoVal → Bool
  | .vNilPtr, w => match w with | .vNilPtr => true | _ => false
  | .vInt a, w => match w with | .vInt b => a = b | _ => false
  | .vBool a, w => match w with | .vBool b => a = b | _ => false
  | .vString a, w => match w with | .vString b => a = b | _ => false
  | .vPtr a, w => match w with | .vPtr b => goValBEq a b | _ => false
  | .vStruct a, w => match w with | .vStruct b => goValFieldsBEq a b | _ => false
  | .vMap a, w => match w with | .vMap b => goValEntriesBEq a b | _ => false
  | .vArr a, w => match w with | .vArr b => goValListBEq a b | _ => false
termination_by structural a _ => a
def goValFieldsBEq : List (String × String × String × GoVal) →
    List (String × String × String × GoVal) → Bool
  | [], w => match w with | [] => true | _ => false
  | (n1, z1, j1, v1) :: r1, w =>
    match w with
    | (n2, z2, j2, v2) :: r2 =>
      n1 = n2 && z1 = z2 && j1 = j2 && goValBEq v1 v2 && goValFieldsBEq r1 r2
    | _ => false
termination_by structural a _ => a
def goValEntriesBEq : List (String × GoVal) → List (String × GoVal) → Bool
  | [], w => match w with | [] => true | _ => false
  | (k1, v1) :: r1, w =>
    match w with
    | (k2, v2) :: r2 => k1 = k2 && goValBEq v1 v2 && goValEntriesBEq r1 r2
    | _ => false
termination_by structural a _ => a
def goValListBEq : List GoVal → List GoVal → Bool
  | [], w => match w with | [] => true | _ => false
  | v1 :: r1, w =>
    match w with
    | v2 :: r2 => goValBEq v1 v2 && goValListBEq r1 r2
    | _ => false
termination_by structural a _ => a
end

/-- `reflect.ValueOf(v).Kind()` for a value stored in a flattened row
    (`nil` interface gives the invalid kind). -/
def kindOf : GoVal → GoKind
  | .vNilPtr => .kInvalid
  | .vInt _ => .kInt
  | .vBool _ => .kBool
  | .vString _ => .kString
  | .vPtr _ => .kPtr
  | .vStruct _ => .kStructK
  | .vMap _ => .kMapK
  | .vArr _ => .kSlice

/-- encode.go:671-673 `canBeInt` (the int8..int64 kinds collapse to `kInt`). -/
def canBeInt : GoKind → Bool
  | .kInt => true
  | _ => false

/-- encode.go:675-677 `isIntKind`. -/
def isIntKind (k : GoKind) : Bool := canBeInt k

/-- encode.go:679-681 `isBoolKind`. -/
def isBoolKind : GoKind → Bool
  | .kBool => true
  | _ => false

/-- Effective struct tag: `zoon` tag, falling back to the `json` tag. -/
def effTag (zt jt : String) : String := if zt = "" then jt else zt

/-- Name a struct field is exposed under: `parts[0]` of its tag if nonempty,
    else the field name. -/
def exposedName (n tag : String) : String :=
  if tagHead tag = "" then n else tagHead tag

mutual
/-- `fmt.Sprintf("%v", ·)` for the value shapes reachable in this
    development (`nil` prints `<nil>`; pointers would print an address and
    are not reachable in the branches that use `%v`). -/
def goFmtV : GoVal → String
  | .vNilPtr => "<nil>"
  | .vInt n => intToDecimal n
  | .vBool b => cond b "true" "false"
  | .vString s => s
  | .vPtr v => "&" ++ goFmtV v
  | .vStruct fs => "\x7b" ++ joinSp (goFmtVFields fs) ++ "\x7d"
  | .vMap es => "map[" ++ joinSp (goFmtVEntries es) ++ "]"
  | .vArr es => "[" ++ joinSp (goFmtVList es) ++ "]"
def goFmtVFields : List (String × String × String × GoVal) → List String
  | [] => []
  | (_, _, _, v) :: rest => goFmtV v :: goFmtVFields rest
def goFmtVEntries : List (String × GoVal) → List String
  | [] => []
  | (k, v) :: rest => (k ++ ":" ++ goFmtV v) :: goFmtVEntries rest
def goFmtVList : List GoVal → List String
  | [] => []
  | v :: rest => goFmtV v :: goFmtVList rest
end

/-! ## Inline encoder (encode.go:585-669) -/

mutual
/-- encode.go:640-669 `serializeValue`. -/
def serializeValue : GoVal → String
  | .vNilPtr => "~"
  | .vPtr v => serializeValue v
  | .vString s => spaceToUnderscore s
  | .vInt n => intToDecimal n
  | .vBool b => cond b "true" "false"
  | .vStruct fs => "\x7b" ++ joinSp (inlineStructParts fs) ++ "\x7d"
  | .vMap es =>
    "\x7b" ++ joinSp ((insSort (fun a b => strLe a.1 b.1) (inlineMapPairs es)).map Prod.snd) ++ "\x7d"
  | .vArr es => "[" ++ joinSp (goFmtVList es) ++ "]"

/-- encode.go:623-638 `formatInlinePair`: string fields render with `=`,
    booleans as `y`/`n`, everything else as `key:serializeValue v` (written
    here with `serializeValue` unfolded one constructor step, keeping the
    mutual recursion structural). -/
def formatInlinePair (key : String) (v : GoVal) : String :=
  match v with
  | .vString s => key ++ "=" ++ spaceToUnderscore s
  | .vBool b => if b then key ++ ":y" else key ++ ":n"
  | .vNilPtr => key ++ ":~"
  | .vPtr x => key ++ ":" ++ serializeValue x
  | .vInt n => key ++ ":" ++ intToDecimal n
  | .vStruct fs => key ++ ":" ++ ("\x7b" ++ joinSp (inlineStructParts fs) ++ "\x7d")
  | .vMap es =>
    key ++ ":" ++
      ("\x7b" ++
        joinSp ((insSort (fun a b => strLe a.1 b.1) (inlineMapPairs es)).map Prod.snd) ++
        "\x7d")
  | .vArr es => key ++ ":" ++ ("[" ++ joinSp (goFmtVList es) ++ "]")

/-- Struct branch of encode.go:585-621 `encodeInline`: pairs in field order,
    fields whose tag is `"-"` skipped. -/
def inlineStructParts : List (String × String × String × GoVal) → List String
  | [] => []
  | (n, zt, jt, v) :: rest =>
    if effTag zt jt = "-" then inlineStructParts rest
    else formatInlinePair (exposedName n (effTag zt jt)) v :: inlineStructParts rest

/-- Map branch of `encodeInline`: each entry rendered, then ordered by key
    (rendering an entry does not depend on its position, so sorting the
    rendered pairs agrees with Go's sort-then-render). -/
def inlineMapPairs : List (String × GoVal) → List (String × String)
  | [] => []
  | (k, v) :: rest => (k, formatInlinePair k v) :: inlineMapPairs rest
end

/-- encode.go:585-621 `encodeInline` applied to a (possibly
    pointer-wrapped) struct or map; anything else renders as no pairs. -/
def encodeInlineTop (v : GoVal) : String :=
  match (match v with | .vPtr x => x | x => x) with
  | .vStruct fs => joinSp (inlineStructParts fs)
  | .vMap es => joinSp ((insSort (fun a b => strLe a.1 b.1) (inlineMapPairs es)).map Prod.snd)
  | _ => ""

/-! ## Flattening (encode.go:122-173) -/

abbrev FlatRow := List (String × GoVal)

def joinKey (pfx k : String) : String := if pfx = "" then k else pfx ++ "." ++ k

mutual
/-- encode.go:122-173 `flattenValue`: recursively flatten nested structs and
    maps into dotted-path/value pairs, stopping at primitives, nil
    references and arrays. -/
def flattenValue (pfx : String) : GoVal → FlatRow
  | .vNilPtr => [(pfx, .vNilPtr)]
  | .vPtr v => flattenValue pfx v
  | .vMap es =>
    ((insSort (fun a b => strLe a.1 b.1) (flattenMapEntries pfx es)).map Prod.snd).flatten
  | .vStruct fs => flattenStructFields pfx fs
  | v => [(pfx, v)]
def flattenStructFields (pfx : String) : List (String × String × String × GoVal) → FlatRow
  | [] => []
  | (n, zt, jt, v) :: rest =>
    if effTag zt jt = "-" then flattenStructFields pfx rest
    else
      flattenValue (joinKey pfx (exposedName n (effTag zt jt))) v ++
        flattenStructFields pfx rest
def flattenMapEntries (pfx : String) : List (String × GoVal) → List (String × FlatRow)
  | [] => []
  | (k, v) :: rest => (k, flattenValue (joinKey pfx k) v) :: flattenMapEntries pfx rest
end

/-- `row[k]` on the flattened row map: a missing path reads as the nil
    interface.  (Path collisions, where Go's map would overwrite, do not
    occur for the value shapes in this development.) -/
def rowLookup (row : FlatRow) (k : String) : GoVal :=
  match row.find? (fun e => e.1 = k) with
  | some e => e.2
  | none => .vNilPtr

/-- Distinct elements in order of first appearance (models collecting the
    keys of a Go map/set before sorting). -/
def dedupAux (seen : List String) : List String → List String
  | [] => []
  | x :: rest =>
    if seen.contains x then dedupAux seen rest else x :: dedupAux (x :: seen) rest

/-! ## Column statistics and type decisions (encode.go:175-184, 322-360, 412-485) -/

/-- encode.go:329-348: widened column kind and the `isSeq` candidate flag,
    folded over the rows in order (the flag, once set, is never cleared). -/
def colKindSeq (k : String) (flat : List FlatRow) : GoKind × Bool :=
  flat.foldl
    (fun st row =>
      let v := rowLookup row k
      let kind :=
        if kindOf v = .kInvalid then st.1
        else if st.1 = .kInvalid then kindOf v
        else if st.1 ≠ kindOf v then .kString
        else st.1
      (kind, st.2 || (k = "id" && canBeInt kind)))
    (.kInvalid, false)

/-- encode.go:352-360: serialized value of column `k` for every row. -/
def colValues (k : String) (flat : List FlatRow) : List String :=
  flat.map (fun row => serializeValue (rowLookup row k))

/-- encode.go:421-427: the serialized values are exactly `"1","2",…,"N"`. -/
def isSeqValues (values : List String) : Bool :=
  values.enum.all (fun p => p.2 = natToDecimal (p.1 + 1))

structure ColSpec where
  typeCode : String
  indexed : Bool
  enumKeys : List String
  isText : Bool

/-- encode.go:414-478: decide the type code of one active column.  `uniq`
    is the distinct-serialized-value list, `length` the row count. -/
def decideCol (kind : GoKind) (seqCand : Bool) (values uniq : List String)
    (length : Nat) : ColSpec :=
  if seqCand then
    if isSeqValues values then ⟨"i+", false, [], false⟩ else ⟨"i", false, [], false⟩
  else if isBoolKind kind then ⟨"b", false, [], false⟩
  else if isIntKind kind then ⟨"i", false, [], false⟩
  else if uniq.length ≤ 10 && uniq.length < length then
    let keys := insSort strLe (uniq.filter (fun s => s ≠ "~"))
    if keys.length ≥ 3 then
      let avgLen := (keys.foldl (fun a s => a + s.length) 0) / keys.length
      let literalCost := avgLen * length
      let indexCost := (joinBar keys).length + length * 2
      if literalCost > indexCost then ⟨"!" ++ joinBar keys, true, keys, false⟩
      else ⟨"=" ++ joinBar keys, false, keys, false⟩
    else if keys.length > 0 then ⟨"=" ++ joinBar keys, false, keys, false⟩
    else ⟨"s", false, [], false⟩
  else
    let totalLen := values.foldl (fun a s => a + s.length) 0
    if values.length > 0 && totalLen / values.length > 30 then ⟨"t", false, [], true⟩
    else ⟨"s", false, [], false⟩

/-! ## Alias detection (encode.go:186-266) -/

def joinDot (parts : List String) : String :=
  match parts with
  | [] => ""
  | p :: rest => rest.foldl (fun acc x => acc ++ "." ++ x) p

/-- encode.go:188-196: the proper dotted prefixes of one key
    (`Join(parts[:i], ".")` for `i = 1 .. len(parts)-1`). -/
def pfxsOf (key : String) : List String :=
  let parts := splitDot key
  if parts.length > 1 then
    (List.range (parts.length - 1)).map (fun i => joinDot (parts.take (i + 1)))
  else []

/-- Number of increments `prefixCounts[p]` receives over all keys. -/
def pfxCount (keys : List String) (p : String) : Nat :=
  ((keys.flatMap pfxsOf).filter (fun q => q = p)).length

/-- encode.go:204-211 score formula `(len-2)*count - (len+4)`. -/
def aliasScore (len count : Nat) : Int :=
  ((len : Int) - 2) * (count : Int) - ((len : Int) + 4)

/-- encode.go:204-213: prefixes with positive score, sorted by score
    descending.  Go iterates its map in unspecified order before the
    (unstable) sort; enumerating the distinct prefixes in ascending order
    and sorting stably is one determinization of that behaviour. -/
def savingsOf (keys : List String) : List (String × Int) :=
  let pfxs := insSort strLe (dedupAux [] (keys.flatMap pfxsOf))
  let scored := pfxs.map (fun p => (p, aliasScore p.length (pfxCount keys p)))
  insSort (fun a b => b.2 ≤ a.2) (scored.filter (fun s => 0 < s.2))

/-- First character of the last dot-segment, lowercased
    (encode.go:224-225). -/
def lastSegFirstLower (p : String) : String :=
  match ((splitDot p).getLastD "").data with
  | [] => ""
  | c :: _ => ⟨[c.toLower]⟩

/-- encode.go:228-243: find an unused alias, falling back to the sequential
    letters `'a' + aliasIdx`; returns `""` when the letters run out.  The
    fuel bounds the loop (the index strictly increases and is capped at 26,
    so fuel 26 never runs out). -/
def pickAliasFuel : Nat → List String → String → Nat → String × Nat
  | 0, _, _, aliasIdx => ("", aliasIdx)
  | fuel + 1, used, cand, aliasIdx =>
    if used.contains cand then
      if cand.length = 1 then
        let c := Char.ofNat ('a'.toNat + aliasIdx)
        let idx' := aliasIdx + 1
        if 25 < idx' then ("", idx')
        else pickAliasFuel fuel used ⟨[c]⟩ idx'
      else ("", aliasIdx)
    else (cand, aliasIdx)

def pickAlias (used : List String) (cand : String) (aliasIdx : Nat) : String × Nat :=
  pickAliasFuel 26 used cand aliasIdx

/-- encode.go:219-252: assign aliases to the scored prefixes in order,
    stopping once 10 aliases exist; a prefix whose `pickAlias` came back
    empty is skipped. -/
def assignAliases : List (String × Int) → List (String × String) → List String → Nat →
    List (String × String)
  | [], acc, _, _ => acc
  | (p, _) :: rest, acc, used, idx =>
    match pickAlias used (lastSegFirstLower p) idx with
    | (a, idx') =>
      if a = "" then
        if 10 ≤ acc.length then acc else assignAliases rest acc used idx'
      else
        if 10 ≤ (acc ++ [(p, a)]).length then acc ++ [(p, a)]
        else assignAliases rest (acc ++ [(p, a)]) (a :: used) idx'

/-- encode.go:186-254 `detectAliases`. -/
def detectAliases (keys : List String) : List (String × String) :=
  assignAliases (savingsOf keys) [] [] 0

/-- encode.go:256-266 `applyAlias` (Go iterates the alias map in
    unspecified order; the assignment order is used here — alias prefixes
    never overlap in this development, so at most one entry matches). -/
def applyAlias (name : String) : List (String × String) → String
  | [] => name
  | (p, a) :: rest =>
    if goHasPfx name (p ++ ".") then "%" ++ a ++ (⟨name.data.drop p.data.length⟩ : String)
    else if name = p then "%" ++ a
    else applyAlias name rest

/-! ## Tabular encoder (encode.go:268-583) -/

/-- encode.go:294-320: partition the sorted key list into constants (equal
    non-nil value in every row; only attempted when there is more than one
    row) and active keys. -/
def constSplit (flat : List FlatRow) : List String → List (String × GoVal) × List String
  | [] => ([], [])
  | k :: rest =>
    let split := constSplit flat rest
    let first := rowLookup (flat.headD []) k
    if flat.all (fun row => goValBEq (rowLookup row k) first) && !(goValBEq first .vNilPtr)
    then ((k, first) :: split.1, split.2)
    else (split.1, k :: split.2)

/-- Index of the first occurrence of `s` (the `for idx, v := range` search
    in the row emission loop). -/
def idxOfStr (s : String) : List String → Option Nat
  | [] => none
  | x :: rest => if x = s then some 0 else (idxOfStr s rest).map (· + 1)

/-- encode.go:528-580: tokens of one data row, in active-column order;
    sequence columns are skipped, bool columns render 1/0, indexed enums
    render their index, text columns render quoted with escaped quotes. -/
def rowTokens (row : FlatRow) : List (String × GoKind × ColSpec) → List String
  | [] => []
  | (k, kind, spec) :: rest =>
    if spec.typeCode = "i+" then rowTokens row rest
    else
      let rawVal := rowLookup row k
      let sVal := serializeValue rawVal
      let sVal :=
        if isBoolKind kind then
          if sVal = "true" then "1" else if sVal = "false" then "0" else sVal
        else if spec.indexed && 0 < spec.enumKeys.length then
          match idxOfStr sVal spec.enumKeys with
          | some i => natToDecimal i
          | none => sVal
        else if spec.isText then
          let rawStr := match rawVal with | .vString s => s | v => goFmtV v
          "\"" ++ escapeQuotes rawStr ++ "\""
        else sVal
      sVal :: rowTokens row rest

def joinNl (parts : List String) : String :=
  match parts with
  | [] => ""
  | p :: rest => rest.foldl (fun acc x => acc ++ "\n" ++ x) p

/-- encode.go:388-410: one `@name<sep>value` constant header token. -/
def constToken (aliases : List (String × String)) (kv : String × GoVal) : String :=
  let aliased := spaceToUnderscore (applyAlias kv.1 aliases)
  match kv.2 with
  | .vString s => "@" ++ aliased ++ "=" ++ spaceToUnderscore s
  | .vBool b => "@" ++ aliased ++ ":" ++ (cond b "y" "n")
  | v => "@" ++ aliased ++ ":" ++ serializeValue v

/-- encode.go:480-484: one column header token. -/
def colToken (aliases : List (String × String)) (k : String) (spec : ColSpec) : String :=
  let aliased := spaceToUnderscore (applyAlias k aliases)
  if goHasPfx spec.typeCode "=" || goHasPfx spec.typeCode "!" then aliased ++ spec.typeCode
  else aliased ++ ":" ++ spec.typeCode

/-- encode.go:268-583 `encodeTabular`: full tabular encoding of a nonempty
    slice; an empty slice produces no output. -/
def encodeTabular (elems : List GoVal) : String :=
  if elems.length = 0 then ""
  else
    let flat := elems.map (flattenValue "")
    let allKeys := insSort strLe (dedupAux [] (flat.flatMap (fun r => r.map Prod.fst)))
    let split := if 1 < elems.length then constSplit flat allKeys else ([], allKeys)
    let consts := split.1
    let activeKeys := split.2
    let specs := activeKeys.map (fun k =>
      let ks := colKindSeq k flat
      let values := colValues k flat
      (k, ks.1, decideCol ks.1 ks.2 values (dedupAux [] values) elems.length))
    let aliases := detectAliases activeKeys
    let aliasLines :=
      if 0 < aliases.length then
        [joinSp (insSort strLe (aliases.map (fun pa => "%" ++ pa.2 ++ "=" ++ pa.1)))]
      else []
    let allSkipped := specs.all (fun s => s.2.2.typeCode = "i+")
    let plusPart :=
      if allSkipped && 0 < elems.length then ["+" ++ natToDecimal elems.length] else []
    let headerLine :=
      joinSp ("#" :: (consts.map (constToken aliases) ++
        specs.map (fun s => colToken aliases s.1 s.2.2) ++ plusPart))
    let headerBlock := joinNl (aliasLines ++ [headerLine])
    if allSkipped then headerBlock ++ "\n"
    else
      headerBlock ++ "\n" ++
        (flat.map (fun row => joinSp (rowTokens row specs) ++ "\n")).foldl (· ++ ·) ""

/-- zoon.go:40-46 `Marshal` composed with encode.go:106-120 `encode`:
    dispatch on the (pointer-dereferenced) value shape. -/
def goMarshal (v : GoVal) : Except String String :=
  match (match v with | .vPtr x => x | x => x) with
  | .vArr es => .ok (encodeTabular es)
  | .vStruct fs => .ok (encodeInlineTop (.vStruct fs))
  | .vMap es => .ok (encodeInlineTop (.vMap es))
  | _ => .error "zoon: invalid format: top level must be object or array"

/-! ## Decode-side primitives (decode.go:474-611) -/

/-- decode.go:566-585 `findField`: first field whose tag head equals `name`
    exactly (tag nonempty), or whose field name matches case-insensitively;
    per field the tag is tried before the name. -/
def findFieldIdxAux (name : String) : Nat → List (String × String × String × GoType) → Option Nat
  | _, [] => none
  | i, (fn, zt, jt, _) :: rest =>
    let tag := effTag zt jt
    if tag ≠ "" && tagHead tag = name then some i
    else if eqFold fn name then some i
    else findFieldIdxAux name (i + 1) rest

def findFieldIdx (fields : List (String × String × String × GoType)) (name : String) :
    Option Nat :=
  findFieldIdxAux name 0 fields

def tyAt (fields : List (String × String × String × GoType)) (i : Nat) : GoType :=
  match fields.get? i with
  | some f => f.2.2.2
  | none => .tAny

def valAt (fields : List (String × String × String × GoVal)) (i : Nat) : GoVal :=
  match fields.get? i with
  | some f => f.2.2.2
  | none => .vNilPtr

def setValAt : List (String × String × String × GoVal) → Nat → GoVal →
    List (String × String × String × GoVal)
  | [], _, _ => []
  | (n, zt, jt, _) :: rest, 0, nv => (n, zt, jt, nv) :: rest
  | f :: rest, i + 1, nv => f :: setValAt rest i nv

/-- Go map read (`m[k]`). -/
def mapGet (es : List (String × GoVal)) (k : String) : Option GoVal :=
  (es.find? (fun e => e.1 = k)).map (fun e => e.2)

/-- Go map write (`m[k] = v`): overwrite in place, insert at the end. -/
def mapSet : List (String × GoVal) → String → GoVal → List (String × GoVal)
  | [], k, v => [(k, v)]
  | (k', v') :: rest, k, v =>
    if k' = k then (k, v) :: rest else (k', v') :: mapSet rest k v

mutual
/-- Go zero value of a type (`reflect.New(t).Elem()`). -/
def zeroVal : GoType → GoVal
  | .tInt => .vInt 0
  | .tBool => .vBool false
  | .tString => .vString ""
  | .tAny => .vNilPtr
  | .tPtr _ => .vNilPtr
  | .tSlice _ => .vArr []
  | .tStruct fs => .vStruct (zeroFields fs)
  | .tMap _ => .vMap []
def zeroFields : List (String × String × String × GoType) → List (String × String × String × GoVal)
  | [] => []
  | (n, zt, jt, ty) :: rest => (n, zt, jt, zeroVal ty) :: zeroFields rest
end

mutual
/-- Dynamic type of a value read back out of an `any` (`existing.Elem()` at
    decode.go:421-423; maps fabricated during decoding are
    `map[string]any`). -/
def dynTypeOf : GoVal → GoType
  | .vNilPtr => .tAny
  | .vInt _ => .tInt
  | .vBool _ => .tBool
  | .vString _ => .tString
  | .vPtr v => .tPtr (dynTypeOf v)
  | .vStruct fs => .tStruct (dynFields fs)
  | .vMap _ => .tMap .tAny
  | .vArr _ => .tSlice .tAny
def dynFields : List (String × String × String × GoVal) → List (String × String × String × GoType)
  | [] => []
  | (n, zt, jt, v) :: rest => (n, zt, jt, dynTypeOf v) :: dynFields rest
end

/-- Go conversion `string(rune(n))`: the code point, or `'�'` when `n`
    is not a valid rune. -/
def intToStringConv (n : Int) : String :=
  if 0 ≤ n && (n < 0xD800 || (0xE000 ≤ n && n < 0x110000)) then ⟨[Char.ofNat n.toNat]⟩
  else ⟨[Char.ofNat 0xFFFD]⟩

def primGoVal : Prim → GoVal
  | .pnull => .vNilPtr
  | .pint n => .vInt n
  | .pbool b => .vBool b
  | .pstr s => .vString s

/-- `rVal.Type().ConvertibleTo(fieldType)` + `rVal.Convert(fieldType)` at
    decode.go:545-550 for the types occurring here: int converts to int and
    (as a rune) to string, bool to bool, string to string, anything to
    `any`; nothing converts to pointers, structs, maps or slices. -/
def convertPrim : Prim → GoType → Option GoVal
  | .pint n, .tInt => some (.vInt n)
  | .pint n, .tString => some (.vString (intToStringConv n))
  | .pbool b, .tBool => some (.vBool b)
  | .pstr s, .tString => some (.vString s)
  | p, .tAny => some (primGoVal p)
  | _, _ => none

/-! ## Inline parser (decode.go:284-343) -/

structure InlinePair where
  key : String
  sep : String
  value : String

/-- decode.go:315-326: consume a brace-balanced run (the opening `'{'`
    already consumed, depth starts at 1); an unbalanced run extends to the
    end of the input. -/
def braceScan (depth : Nat) : List Char → List Char × List Char
  | [] => ([], [])
  | c :: rest =>
    let d := if c = '\x7b' then depth + 1 else if c = '\x7d' then depth - 1 else depth
    if d = 0 then ([c], rest)
    else
      match braceScan d rest with
      | (t, r) => (c :: t, r)

/-- decode.go:293-337 `inlineParser.parse`.  The fuel is the input length
    plus one; every parsed pair consumes at least its separator character,
    so the fuel never runs out. -/
def parseInlineFuel : Nat → List Char → Except String (List InlinePair)
  | 0, _ => .ok []
  | fuel + 1, cs =>
    let cs := cs.dropWhile (fun c => c = ' ' || c = '\n')
    match cs with
    | [] => .ok []
    | _ :: _ =>
      let key := cs.takeWhile (fun c => !(c = ':' || c = '=' || c = ' '))
      match cs.dropWhile (fun c => !(c = ':' || c = '=' || c = ' ')) with
      | [] => .error ("unexpected end after key " ++ ⟨key⟩)
      | sep :: rest' =>
        let scan :=
          match rest' with
          | '\x7b' :: tail =>
            match braceScan 1 tail with
            | (t, r) => ('\x7b' :: t, r)
          | _ => (rest'.takeWhile (fun c => c ≠ ' '), rest'.dropWhile (fun c => c ≠ ' '))
        match parseInlineFuel fuel scan.2 with
        | .ok pairs => .ok ({ key := ⟨key⟩, sep := ⟨[sep]⟩, value := ⟨scan.1⟩ } :: pairs)
        | .error e => .error e

def parseInline (s : String) : Except String (List InlinePair) :=
  parseInlineFuel (s.data.length + 1) s.data

/-! ## Row tokenizer (decode.go:345-386) -/

/-- decode.go:345-386 `tokenizeRow` as a character state machine.  States:
    0 between tokens, 1 plain token, 2 inside quotes, 3 inside quotes after
    a backslash, 4 inside brackets.  An unterminated quote drops the final
    character (Go slices `line[i+1 : len-1]`); an unterminated bracket is
    emitted as-is (Go would panic on the out-of-range slice
    `line[i : len+1]`). -/
def tokRowAux : List Char → Nat → List Char → List (List Char)
  | [], st, cur =>
    match st with
    | 0 => []
    | 2 => [cur.dropLast]
    | 3 => [cur.dropLast]
    | _ => [cur]
  | c :: rest, st, cur =>
    match st with
    | 0 =>
      if c = ' ' then tokRowAux rest 0 []
      else if c = '"' then tokRowAux rest 2 []
      else if c = '[' then tokRowAux rest 4 ['[']
      else tokRowAux rest 1 [c]
    | 1 =>
      if c = ' ' then cur :: tokRowAux rest 0 [] else tokRowAux rest 1 (cur ++ [c])
    | 2 =>
      if c = '\\' then tokRowAux rest 3 (cur ++ [c])
      else if c = '"' then cur :: tokRowAux rest 0 []
      else tokRowAux rest 2 (cur ++ [c])
    | 3 => tokRowAux rest 2 (cur ++ [c])
    | _ =>
      if c = ']' then (cur ++ [c]) :: tokRowAux rest 0 []
      else tokRowAux rest 4 (cur ++ [c])

def tokenizeRow (line : String) : List String :=
  (tokRowAux line.data 0 []).map (⟨·⟩)

/-! ## Deep-path assignment (decode.go:388-554) -/

/-- The mid-path map navigation plan of decode.go:401-459: which value to
    descend into, with what static type, and whether mutations are visible
    in the parent (`true` for existing shared map references, written back
    here; `false` for the freshly created orphans that Go never links into
    the parent, and for existing primitives, whose traversal fails anyway).
    `none` marks an existing struct entry: it is unaddressable and Go
    panics on the eventual `Set`. -/
def mapNavPlan (ety : GoType) (entries : List (String × GoVal)) (part : String) :
    Option (GoType × GoVal × Bool) :=
  match mapGet entries part with
  | some (.vMap []) => some (.tMap .tAny, .vMap [], true)
  | some (.vMap (e :: es)) => some (.tMap .tAny, .vMap (e :: es), true)
  | some (.vStruct _) => none
  | some e => some (dynTypeOf e, e, false)
  | none =>
    some ((match ety with | .tAny => GoType.tMap .tAny | t => t),
      (match ety with
       | .tAny => GoVal.vMap []
       | .tPtr t => GoVal.vPtr (zeroVal t)
       | t => zeroVal t), false)

mutual
/-- decode.go:388-472 `setDeepField` with the path already split on `.`;
    walks non-final segments, dereferencing pointers (allocating absent
    ones) and navigating maps and structs.  The fuel (first argument)
    decreases on every call and is chosen large enough by the callers. -/
def setDeepParts : Nat → GoType → GoVal → List String → String → String → Except String GoVal
  | 0, _, v, _, _, _ => .ok v
  | fuel + 1, ty0, v0, parts0, typ, valStr =>
    match ty0, v0, parts0 with
    | .tPtr ety, w, parts =>
      (setDeepParts fuel ety (match w with | .vPtr x => x | _ => zeroVal ety) parts typ
        valStr).map .vPtr
    | _, v, [] => .ok v
    | ty, v, [last] => setField fuel ty v last typ valStr
    | .tMap ety, .vMap entries, part :: p2 :: parts =>
      (match mapNavPlan ety entries part with
       | none => .error "zoon: unaddressable value"
       | some (tyN, vN, wb) =>
         (setDeepParts fuel tyN vN (p2 :: parts) typ valStr).map
           (fun e => if wb then .vMap (mapSet entries part e) else .vMap entries))
    | .tStruct ftys, .vStruct fvals, part :: p2 :: parts =>
      (match findFieldIdx ftys part with
       | none => .ok (.vStruct fvals)
       | some i =>
         (setDeepParts fuel (tyAt ftys i) (valAt fvals i) (p2 :: parts) typ valStr).map
           (fun fv => .vStruct (setValAt fvals i fv)))
    | _, v, _ :: _ :: _ => .error "zoon: cannot traverse"

/-- decode.go:474-554 `setField`: assign one named field of a map or
    struct; a braced value is decoded recursively as an inline document
    (parse errors silently yield no pairs), `~` resets to the zero value,
    and a primitive is converted if convertible, else silently dropped.
    Assignments to any other shape are silently ignored (decode.go:553). -/
def setField : Nat → GoType → GoVal → String → String → String → Except String GoVal
  | 0, _, v, _, _, _ => .ok v
  | fuel + 1, ty0, v0, name, typ, valStr =>
    match ty0, v0 with
    | .tPtr ety, w =>
      (setField fuel ety (match w with | .vPtr x => x | _ => zeroVal ety) name typ
        valStr).map .vPtr
    | .tMap ety, .vMap entries =>
      if goHasPfx valStr "\x7b" &&
          (match ety with | .tStruct _ => true | .tMap _ => true | _ => false) then
        .ok (.vMap (mapSet entries name
          (applyPairsIgnore fuel ety (zeroVal ety)
            (match parseInline ⟨(valStr.data.drop 1).dropLast⟩ with
             | .ok ps => ps
             | .error _ => []))))
      else
        (match parsePrimitive valStr typ with
         | .pnull => .ok (.vMap (mapSet entries name (zeroVal ety)))
         | .pint n =>
           (match ety with
            | .tInt => .ok (.vMap (mapSet entries name (.vInt n)))
            | .tAny => .ok (.vMap (mapSet entries name (.vInt n)))
            | _ => .error "zoon: unassignable map value")
         | .pbool b =>
           (match ety with
            | .tBool => .ok (.vMap (mapSet entries name (.vBool b)))
            | .tAny => .ok (.vMap (mapSet entries name (.vBool b)))
            | _ => .error "zoon: unassignable map value")
         | .pstr s =>
           (match ety with
            | .tString => .ok (.vMap (mapSet entries name (.vString s)))
            | .tAny => .ok (.vMap (mapSet entries name (.vString s)))
            | _ => .error "zoon: unassignable map value"))
    | .tStruct ftys, .vStruct fvals =>
      (match findFieldIdx ftys name with
       | none => .ok (.vStruct fvals)
       | some i =>
         if goHasPfx valStr "\x7b" then
           .ok (.vStruct (setValAt fvals i
             (applyPairsIgnore fuel (tyAt ftys i) (zeroVal (tyAt ftys i))
               (match parseInline ⟨(valStr.data.drop 1).dropLast⟩ with
                | .ok ps => ps
                | .error _ => []))))
         else
           match parsePrimitive valStr typ with
           | .pnull => .ok (.vStruct (setValAt fvals i (zeroVal (tyAt ftys i))))
           | p =>
             match convertPrim p (tyAt ftys i) with
             | some cv => .ok (.vStruct (setValAt fvals i cv))
             | none => .ok (.vStruct fvals))
    | _, v => .ok v

/-- decode.go:493-499 and 525-533: apply parsed inline pairs to a value,
    discarding any error from the underlying assignment (in Go the partial
    in-place mutations before an error survive; here the value from before
    the failing pair is kept). -/
def applyPairsIgnore : Nat → GoType → GoVal → List InlinePair → GoVal
  | 0, _, v, _ => v
  | _ + 1, _, v, [] => v
  | fuel + 1, ty, v, p :: rest =>
    applyPairsIgnore fuel ty
      (match setDeepField fuel ty v p.key "auto"
          (if p.sep = "=" then underscoreToSpace p.value else p.value) with
       | .ok w => w
       | .error _ => v) rest

/-- decode.go:388-397 `setDeepField`: split the dotted path and walk. -/
def setDeepField : Nat → GoType → GoVal → String → String → String → Except String GoVal
  | 0, _, v, _, _, _ => .ok v
  | fuel + 1, ty, v, path, typ, valStr => setDeepParts fuel ty v (splitDot path) typ valStr
end

/-! ## Tabular decoder (decode.go:35-251) -/

structure HeaderField where
  name : String
  typ : String
  val : String
  indexed : Bool
  options : List String

def aliasGet (aliases : List (String × String)) (a : String) : Option String :=
  (aliases.find? (fun e => e.1 = a)).map (fun e => e.2)

def aliasSet : List (String × String) → String → String → List (String × String)
  | [], a, p => [(a, p)]
  | (a', p') :: rest, a, p =>
    if a' = a then (a, p) :: rest else (a', p') :: aliasSet rest a p

/-- decode.go:55-65: accumulate `%alias=value` bindings from one `%` line
    (a token without `'='` is skipped; Go would panic slicing `p[1:0]` if
    the `'='` were the first character, which the encoder never emits). -/
def parseAliasLine (aliases : List (String × String)) (line : String) :
    List (String × String) :=
  (goFields line).foldl
    (fun acc p =>
      match chIndexOf '=' p.data with
      | none => acc
      | some idx =>
        if idx < 1 then acc
        else
          let al : String := ⟨(p.data.drop 1).take (idx - 1)⟩
          let al := if goHasPfx al "%" then (⟨al.data.drop 1⟩ : String) else al
          aliasSet acc al ⟨p.data.drop (idx + 1)⟩)
    aliases

/-- decode.go:49-79: skip blank lines, accumulate `%` lines, stop at the
    first `#` line; any other line is a fatal format error, and an input
    with no `#` line at all is missing its header. -/
def findHeaderLoop : List String → List (String × String) →
    Except String (List (String × String) × String × List String)
  | [], _ => .error "zoon: missing header"
  | l :: rest, aliases =>
    let line := goTrim l
    if line = "" then findHeaderLoop rest aliases
    else if goHasPfx line "%" then findHeaderLoop rest (parseAliasLine aliases line)
    else if goHasPfx line "#" then .ok (aliases, line, rest)
    else .error "zoon: invalid format, expected header"

/-- decode.go:86-157: parse the header tokens into
    `(explicitRows, headers, constants)` (a left-to-right loop carrying the
    three accumulators). -/
def parseHeaderTokens (aliases : List (String × String)) :
    List String → Int → List HeaderField → List HeaderField →
    Int × List HeaderField × List HeaderField
  | [], er, hs, cs => (er, hs, cs)
  | part :: toks, er, hs, cs =>
    if goHasPfx part "+" then
      match goAtoi ⟨part.data.drop 1⟩ with
      | (n, true) => parseHeaderTokens aliases toks n hs cs
      | (_, false) => parseHeaderTokens aliases toks er hs cs
    else
      let isConst := goHasPfx part "@"
      let part' : String := if isConst then ⟨part.data.drop 1⟩ else part
      match chIndexSep part'.data with
      | none => parseHeaderTokens aliases toks er hs cs
      | some sepIdx =>
        let name : String := ⟨part'.data.take sepIdx⟩
        let name :=
          if goHasPfx name "%" then
            match chIndexOf '.' name.data with
            | some dotIdx =>
              match aliasGet aliases ⟨(name.data.drop 1).take (dotIdx - 1)⟩ with
              | some pv => pv ++ "." ++ (⟨name.data.drop (dotIdx + 1)⟩ : String)
              | none => name
            | none =>
              match aliasGet aliases ⟨name.data.drop 1⟩ with
              | some pv => pv
              | none => name
          else name
        match part'.data.drop sepIdx with
        | [] => parseHeaderTokens aliases toks er hs cs
        | sep :: suffixCh =>
          let sfx : String := ⟨suffixCh⟩
          if isConst then
            let hf : HeaderField :=
              if sep = '=' then
                { name := name, typ := "s", val := underscoreToSpace sfx,
                  indexed := false, options := [] }
              else
                { name := name, typ := "inferred", val := sfx, indexed := false, options := [] }
            parseHeaderTokens aliases toks er hs (cs ++ [hf])
          else
            let hf : HeaderField :=
              if sep = '=' then
                { name := name, typ := "s", val := "", indexed := false, options := splitBar sfx }
              else if sep = '!' then
                { name := name, typ := "s", val := "", indexed := true, options := splitBar sfx }
              else
                { name := name, typ := sfx, val := "", indexed := false, options := [] }
            parseHeaderTokens aliases toks er (hs ++ [hf]) cs

/-- decode.go:178-186: apply every constant with type hint `"auto"`. -/
def applyConstants (fuel : Nat) (ty : GoType) : GoVal → List HeaderField →
    Except String GoVal
  | v, [] => .ok v
  | v, c :: rest =>
    match setDeepField fuel ty v c.name "auto" c.val with
    | .ok v' => applyConstants fuel ty v' rest
    | .error e => .error e

/-- decode.go:204-216: one column value applied to the element: `~` skips
    the assignment entirely; an indexed enum token is mapped through the
    option list when it parses as an in-range index; then the deep
    assignment runs. -/
def applyHeaderVal (fuel : Nat) (ty : GoType) (v : GoVal) (h : HeaderField)
    (valStr : String) : Except String GoVal :=
  if valStr = "~" then .ok v
  else
    let valStr :=
      if h.indexed && 0 < h.options.length then
        match goAtoi valStr with
        | (n, true) =>
          if 0 ≤ n && n < (h.options.length : Int) then (h.options.get? n.toNat).getD valStr
          else valStr
        | (_, false) => valStr
      else valStr
    setDeepField fuel ty v h.name h.typ valStr

/-- decode.go:187-217: walk the column descriptors.  An `i+` column
    consumes no row token and advances the auto-increment counter; other
    columns consume the next token (missing trailing tokens read `~`). -/
def applyHeaders (fuel : Nat) (ty : GoType) : GoVal → List HeaderField → List String →
    Nat → Except String (GoVal × Nat)
  | v, [], _, autoInc => .ok (v, autoInc)
  | v, h :: rest, vals, autoInc =>
    if h.typ = "i+" then
      match applyHeaderVal fuel ty v h (natToDecimal (autoInc + 1)) with
      | .ok v' => applyHeaders fuel ty v' rest vals (autoInc + 1)
      | .error e => .error e
    else
      match vals with
      | [] =>
        match applyHeaderVal fuel ty v h "~" with
        | .ok v' => applyHeaders fuel ty v' rest [] autoInc
        | .error e => .error e
      | x :: xs =>
        match applyHeaderVal fuel ty v h x with
        | .ok v' => applyHeaders fuel ty v' rest xs autoInc
        | .error e => .error e

/-- decode.go:175-227 `processRow`: build a fresh zero element, apply
    constants then columns, and append (pointer-wrapped if the slice
    elements are pointers).  The running state is the auto-increment
    counter and the accumulated elements. -/
def processRow (fuel : Nat) (elemTy : GoType) (isPtr : Bool)
    (constants headers : List HeaderField) (autoInc : Nat) (acc : List GoVal)
    (vals : List String) : Except String (Nat × List GoVal) :=
  match applyConstants fuel elemTy (zeroVal elemTy) constants with
  | .error e => .error e
  | .ok v1 =>
    match applyHeaders fuel elemTy v1 headers vals autoInc with
    | .error e => .error e
    | .ok (v2, autoInc') =>
      .ok (autoInc', acc ++ [if isPtr then .vPtr v2 else v2])

/-- decode.go:229-235: synthesize `explicitRows` rows with no tokens. -/
def explicitRowsLoop (fuel : Nat) (elemTy : GoType) (isPtr : Bool)
    (constants headers : List HeaderField) :
    Nat → Nat → List GoVal → Except String (Nat × List GoVal)
  | 0, autoInc, acc => .ok (autoInc, acc)
  | n + 1, autoInc, acc =>
    match processRow fuel elemTy isPtr constants headers autoInc acc [] with
    | .ok (a', acc') => explicitRowsLoop fuel elemTy isPtr constants headers n a' acc'
    | .error e => .error e

/-- decode.go:237-247: one data row per nonblank remaining line. -/
def dataRowsLoop (fuel : Nat) (elemTy : GoType) (isPtr : Bool)
    (constants headers : List HeaderField) :
    List String → Nat → List GoVal → Except String (Nat × List GoVal)
  | [], autoInc, acc => .ok (autoInc, acc)
  | l :: rest, autoInc, acc =>
    let line := goTrim l
    if line = "" then dataRowsLoop fuel elemTy isPtr constants headers rest autoInc acc
    else
      match processRow fuel elemTy isPtr constants headers autoInc acc (tokenizeRow line) with
      | .ok (a', acc') => dataRowsLoop fuel elemTy isPtr constants headers rest a' acc'
      | .error e => .error e

/-- decode.go:43-251 `decodeTabular` on a slice target with element type
    `elemTy` (pointer elements unwrapped into `isPtr`); returns the fresh
    element list (the target slice is reset to length 0 first). -/
def decodeTabular (fuel : Nat) (data : String) (elemTy : GoType) (isPtr : Bool) :
    Except String (List GoVal) :=
  match findHeaderLoop (goLines data) [] with
  | .error e => .error e
  | .ok (aliases, headerLine, restLines) =>
    match parseHeaderTokens aliases (goFields ⟨headerLine.data.drop 2⟩) (-1) [] [] with
    | (explicitRows, headers, constants) =>
      let afterExplicit :=
        if 0 < explicitRows then
          explicitRowsLoop fuel elemTy isPtr constants headers explicitRows.toNat 0 []
        else .ok ((0 : Nat), ([] : List GoVal))
      match afterExplicit with
      | .error e => .error e
      | .ok (a0, acc0) =>
        match dataRowsLoop fuel elemTy isPtr constants headers restLines a0 acc0 with
        | .error e => .error e
        | .ok (_, out) => .ok out

/-- decode.go:253-282 `decodeInline`: dereference the target one pointer
    level (allocating if nil), parse the pairs (failures are fatal here),
    and assign each with hint `"auto"`, restoring spaces for `=` pairs. -/
def applyPairsStrict (fuel : Nat) (ty : GoType) : GoVal → List InlinePair →
    Except String GoVal
  | v, [] => .ok v
  | v, p :: rest =>
    let val := if p.sep = "=" then underscoreToSpace p.value else p.value
    match setDeepField fuel ty v p.key "auto" val with
    | .ok v' => applyPairsStrict fuel ty v' rest
    | .error e => .error e

def decodeInline (fuel : Nat) (ty : GoType) (v : GoVal) (data : String) :
    Except String GoVal :=
  match ty with
  | .tPtr ety =>
    let inner := match v with | .vPtr x => x | _ => zeroVal ety
    match parseInline data with
    | .error e => .error e
    | .ok pairs => (applyPairsStrict fuel ety inner pairs).map .vPtr
  | _ =>
    match parseInline data with
    | .error e => .error e
    | .ok pairs => applyPairsStrict fuel ty v pairs

/-- decode.go:13-33 `decode` (the body of zoon.go:49-51 `Unmarshal`) on a
    non-nil pointer target: `ty`/`v` are the pointee's type and current
    value.  Empty (after trimming) input returns with the target untouched;
    input starting with `#` or `%` decodes as tabular into a slice target;
    anything else decodes as inline.  The fuel bounds only the
    brace-recursion depth and is amply covered by the input length. -/
def goUnmarshal (data : String) (ty : GoType) (v : GoVal) : Except String GoVal :=
  let trimmed := goTrim data
  if trimmed = "" then .ok v
  else
    let fuel := data.data.length + 16
    if goHasPfx trimmed "#" || goHasPfx trimmed "%" then
      match ty with
      | .tSlice ety =>
        match ety with
        | .tPtr t => (decodeTabular fuel trimmed t true).map .vArr
        | t => (decodeTabular fuel trimmed t false).map .vArr
      | _ => .error "zoon: tabular format expects slice"
    else decodeInline fuel ty v trimmed

/-! ## Concrete fixtures: the host types of the repository's tests -/

/-- The `User` struct of README.md:26-31 / zoon.go:65-70. -/
def tUser : GoType :=
  .tStruct [("ID", "id", "", .tInt), ("Name", "name", "", .tString),
            ("Role", "role", "", .tString), ("Active", "active", "", .tBool)]

def mkUser (id : Int) (name role : String) (active : Bool) : GoVal :=
  .vStruct [("ID", "id", "", .vInt id), ("Name", "name", "", .vString name),
            ("Role", "role", "", .vString role), ("Active", "active", "", .vBool active)]

/-- The three rows of `TestTabular` (zoon.go:73-77), which are also the
    canonical example of the spec. -/
def users3 : List GoVal :=
  [mkUser 1 "Alice" "Admin" true, mkUser 2 "Bob" "User" true,
   mkUser 3 "Carol" "User" false]

/-- The `Metric` struct of `TestExplicitRowCount` (zoon.go:527-530). -/
def tMetric : GoType :=
  .tStruct [("ID", "id", "", .tInt), ("Status", "status", "", .tString)]

def mkMetric (i : Int) (s : String) : GoVal :=
  .vStruct [("ID", "id", "", .vInt i), ("Status", "status", "", .vString s)]

/-! ## Claim C2: the canonical 3-user example -/

/-- C2: encoding `[{id:1,name:"Alice",role:"Admin",active:true},
    {id:2,name:"Bob",role:"User",active:true},
    {id:3,name:"Carol",role:"User",active:false}]` produces exactly the
    header `# active:b id:i+ name:s role=Admin|User` followed by the data
    lines `1 Alice Admin`, `1 Bob User`, `0 Carol User`: the 2-valued role
    column becomes a literal enum, the sequential id column becomes `i+`
    and emits no row tokens, and the boolean column renders as 1/0. -/
theorem c2_encode_canonical_example :
    goMarshal (.vArr users3) =
      .ok "# active:b id:i+ name:s role=Admin|User\n1 Alice Admin\n1 Bob User\n0 Carol User\n" := by
  rfl

/-! ## Claim C9: the empty slice -/

/-- C9: `Marshal` of an empty array returns no error and exactly zero
    bytes of output (encode.go:269-271 returns before writing). -/
theorem c9_marshal_empty_slice : goMarshal (.vArr []) = .ok "" := by rfl

/-! ## Claim C6: the null marker on encode for free-text columns -/

/-- A 70-character string, long enough to push the column's average
    serialized length over the free-text threshold of 30. -/
def c6long : String := "aaaaaaaaaaaaaaaaaaaaaaaaaaaaaaaaaaaaaaaaaaaaaaaaaaaaaaaaaaaaaaaaaaaaaa"

/-- C6 (code bug): with a `*string` field whose column is inferred as free
    text (`t`), the row holding the absent optional is emitted as the
    quoted `fmt.Sprintf("%v", nil)` rendering `"<nil>"` (encode.go:567-574)
    instead of the null marker `~` that `serializeValue` (encode.go:640-647)
    and the README's type-mapping table prescribe for nil references. -/
theorem c6_text_column_nil_not_tilde :
    encodeTabular
        [.vStruct [("Note", "note", "", .vPtr (.vString c6long))],
         .vStruct [("Note", "note", "", .vNilPtr)]] =
      "# note:t\n\"" ++ c6long ++ "\"\n\"<nil>\"\n"
    ∧ serializeValue .vNilPtr = "~" := by
  exact ⟨rfl, rfl⟩

/-! ## Claim C7: alias detection and constants -/

def mkSvc (a : Int) (b : String) : GoVal :=
  .vStruct [("Servicename", "servicename", "",
    .vStruct [("A", "a", "", .vInt a), ("B", "b", "", .vString b)])]

/-- C7 counterexample: the constant path `servicename.a` shares the prefix
    `servicename` with the active path `servicename.b`, so counting
    constants gives count 2 and score (11-2)*2-(11+4) = 3 > 0, yet the
    encoder runs `detectAliases` on the active keys only (encode.go:363)
    and emits no alias line at all. -/
theorem c7_counterexample :
    encodeTabular [mkSvc 5 "x", mkSvc 5 "y"] =
      "# @servicename.a:5 servicename.b:s\nx\ny\n"
    ∧ detectAliases ["servicename.b"] = []
    ∧ 0 < aliasScore "servicename".length 2 := by
  refine ⟨rfl, rfl, ?_⟩
  decide

theorem mem_insSorted {α} (le : α → α → Bool) (x y : α) (l : List α) :
    x ∈ insSorted le y l ↔ x = y ∨ x ∈ l := by
  induction l with
  | nil => simp [insSorted]
  | cons z rest ih =>
    by_cases h : le y z
    · simp [insSorted, h]
    · simp [insSorted, h, ih]
      tauto

theorem mem_insSort {α} (le : α → α → Bool) (x : α) (l : List α) :
    x ∈ insSort le l ↔ x ∈ l := by
  induction l with
  | nil => simp [insSort]
  | cons z rest ih => simp [insSort, mem_insSorted, ih]

theorem mem_savingsOf {keys : List String} {p : String} {sc : Int}
    (h : (p, sc) ∈ savingsOf keys) :
    0 < sc ∧ sc = aliasScore p.length (pfxCount keys p) := by
  unfold savingsOf at h
  rw [mem_insSort] at h
  simp only [List.mem_filter, List.mem_map, decide_eq_true_eq] at h
  obtain ⟨⟨q, _, heq⟩, hpos⟩ := h
  cases heq
  exact ⟨hpos, rfl⟩

theorem strlen_le_one {s : String} (h : s.length ≤ 1) : s = "" ∨ s.length = 1 := by
  rcases Nat.le_one_iff_eq_zero_or_eq_one.mp h with h0 | h1
  · left
    cases s with
    | mk data => cases data with
      | nil => rfl
      | cons c cs => simp [String.length] at h0
  · right; exact h1

theorem lastSegFirstLower_len (p : String) : (lastSegFirstLower p).length ≤ 1 := by
  unfold lastSegFirstLower
  split <;> simp [String.length]

theorem pickAliasFuel_len :
    ∀ (fuel : Nat) (used : List String) (cand : String) (idx : Nat), cand.length ≤ 1 →
      (pickAliasFuel fuel used cand idx).1 = "" ∨
        (pickAliasFuel fuel used cand idx).1.length = 1 := by
  intro fuel
  induction fuel with
  | zero => intro used cand idx _; exact Or.inl rfl
  | succ f ih =>
    intro used cand idx h
    unfold pickAliasFuel
    by_cases hc : cand ∈ used
    · by_cases h1 : cand.length = 1
      · by_cases h25 : 25 < idx + 1
        · simp [hc, h1, h25]
        · simpa [hc, h1, h25] using ih used ⟨[Char.ofNat ('a'.toNat + idx)]⟩ (idx + 1)
            (by simp [String.length])
      · simp [hc, h1]
    · rcases strlen_le_one h with h0 | h1
      · simp [hc, h0]
      · simp [hc, h1]

theorem assignAliases_mem :
    ∀ (savings : List (String × Int)) (acc : List (String × String)) (used : List String)
      (idx : Nat) (p a : String),
      (p, a) ∈ assignAliases savings acc used idx →
      (p, a) ∈ acc ∨ ((∃ sc, (p, sc) ∈ savings) ∧ a.length = 1) := by
  intro savings
  induction savings with
  | nil => intro acc used idx p a h; exact Or.inl h
  | cons head rest ih =>
    intro acc used idx p a h
    obtain ⟨q, sc⟩ := head
    have hlen : (pickAlias used (lastSegFirstLower q) idx).1 = "" ∨
        (pickAlias used (lastSegFirstLower q) idx).1.length = 1 :=
      pickAliasFuel_len 26 used (lastSegFirstLower q) idx (lastSegFirstLower_len q)
    unfold assignAliases at h
    rcases hpk : pickAlias used (lastSegFirstLower q) idx with ⟨a', idx'⟩
    rw [hpk] at h hlen
    dsimp only at h hlen
    by_cases ha' : a' = ""
    · rw [if_pos ha'] at h
      split at h
      · exact Or.inl h
      · rcases ih _ _ _ _ _ h with hacc | ⟨⟨sc', hsc⟩, hl⟩
        · exact Or.inl hacc
        · exact Or.inr ⟨⟨sc', List.mem_cons_of_mem _ hsc⟩, hl⟩
    · rw [if_neg ha'] at h
      have hl1 : a'.length = 1 := by
        rcases hlen with h0 | h1
        · exact absurd h0 ha'
        · exact h1
      have hsing : ∀ hone : (p, a) ∈ [(q, a')],
          (p, a) ∈ acc ∨ ((∃ sc', (p, sc') ∈ (q, sc) :: rest) ∧ a.length = 1) := by
        intro hone
        rw [List.mem_singleton] at hone
        have hq : p = q := congrArg Prod.fst hone
        have haa : a = a' := congrArg Prod.snd hone
        exact Or.inr ⟨⟨sc, hq ▸ List.mem_cons_self _ _⟩, haa ▸ hl1⟩
      split at h
      · rcases List.mem_append.mp h with hacc | hone
        · exact Or.inl hacc
        · exact hsing hone
      · rcases ih _ _ _ _ _ h with hacc | ⟨⟨sc', hsc⟩, hl⟩
        · rcases List.mem_append.mp hacc with h1 | hone
          · exact Or.inl h1
          · exact hsing hone
        · exact Or.inr ⟨⟨sc', List.mem_cons_of_mem _ hsc⟩, hl⟩

theorem assignAliases_len :
    ∀ (savings : List (String × Int)) (acc : List (String × String)) (used : List String)
      (idx : Nat), acc.length < 10 → (assignAliases savings acc used idx).length ≤ 10 := by
  intro savings
  induction savings with
  | nil => intro acc used idx h; unfold assignAliases; omega
  | cons head rest ih =>
    intro acc used idx h
    obtain ⟨q, sc⟩ := head
    unfold assignAliases
    rcases hpk : pickAlias used (lastSegFirstLower q) idx with ⟨a', idx'⟩
    dsimp only
    by_cases ha' : a' = ""
    · rw [if_pos ha']
      split
      · omega
      · exact ih _ _ _ h
    · rw [if_neg ha']
      split
      · next hge => simp at hge ⊢; omega
      · next hlt => exact ih _ _ _ (by simp at hlt ⊢; omega)

/-- C7 (amended): alias detection considers every distinct proper
    path-prefix over the *active* dotted paths only (constants are not
    counted, per the counterexample); an assigned prefix always has
    positive score (len-2)*count - (len+4); at most 10 aliases are ever
    assigned; every alias is a single character; and on the concrete
    five-path example the aliases are assigned in descending score order
    (infrastructure 42, …rocketmq 15, …redis 12) as the lowercase first
    character of the last segment, with `r` taken falling back to the
    sequential letter `a`. -/
theorem c7_alias_detection_amended :
    (∀ (keys : List String) (p a : String), (p, a) ∈ detectAliases keys →
        0 < aliasScore p.length (pfxCount keys p) ∧ a.length = 1)
    ∧ (∀ keys : List String, (detectAliases keys).length ≤ 10)
    ∧ detectAliases ["infrastructure.redis.a", "infrastructure.redis.b",
        "infrastructure.rocketmq.a", "infrastructure.rocketmq.b", "infrastructure.x"] =
      [("infrastructure", "i"), ("infrastructure.rocketmq", "r"),
       ("infrastructure.redis", "a")] := by
  refine ⟨?_, ?_, by rfl⟩
  · intro keys p a h
    rcases assignAliases_mem (savingsOf keys) [] [] 0 p a h with hacc | ⟨⟨sc, hsc⟩, hlen⟩
    · simp at hacc
    · rcases mem_savingsOf hsc with ⟨hpos, rfl⟩
      exact ⟨hpos, hlen⟩
  · intro keys
    exact assignAliases_len (savingsOf keys) [] [] 0 (by simp)

/-- Witness: the amended C7 theorem applied at the concrete example. -/
theorem c7_alias_detection_amended_witness :
    0 < aliasScore "infrastructure".length
        (pfxCount ["infrastructure.redis.a", "infrastructure.redis.b",
          "infrastructure.rocketmq.a", "infrastructure.rocketmq.b", "infrastructure.x"]
          "infrastructure")
    ∧ ("i" : String).length = 1 :=
  c7_alias_detection_amended.1 _ "infrastructure" "i" (by decide)

/-! ## Claim C8: header emission order -/

/-- C8 counterexample: on the `TestExplicitRowCount` data the emitted
    header is `# @status=ok id:i+ +3` — the explicit row-count token comes
    *last*, after the constants and column specifications
    (encode.go:513-515 appends it at the end), not first as claimed. -/
theorem c8_counterexample :
    goMarshal (.vArr [mkMetric 1 "ok", mkMetric 2 "ok", mkMetric 3 "ok"]) =
      .ok "# @status=ok id:i+ +3\n"
    ∧ "# @status=ok id:i+ +3\n" ≠ "# +3 @status=ok id:i+\n" := by
  exact ⟨rfl, by decide⟩

/-- A five-field row exercising constants, an indexed enum, a boolean
    column and a sequential id at once. -/
def mkRich (i : Int) (cat : String) (flag : Bool) : GoVal :=
  .vStruct [("ID", "id", "", .vInt i), ("Flag", "flag", "", .vBool flag),
            ("Cat", "cat", "", .vString cat), ("App", "app", "", .vString "zoon"),
            ("Region", "region", "", .vString "eu")]

def richRows : List GoVal :=
  (List.range 12).map (fun (i : Nat) =>
    mkRich (Int.ofNat i + 1) ("alpha-cat" ++ natToDecimal (i % 4)) (decide (i % 2 = 1)))

def mkInfra (p r : String) : GoVal :=
  .vStruct [("Infrastructure", "infrastructure", "",
    .vStruct [("Postgres", "postgres", "", .vStruct [("State", "state", "", .vString p)]),
              ("Redis", "redis", "", .vStruct [("State", "state", "", .vString r)])])]

/-- C8 (amended): the alias-definition line (when any aliases are used)
    comes first, then a single header line of `#` followed by the constant
    declarations sorted by path ascending, then the column specifications,
    then the explicit row-count token `+N` last (when all active columns
    are sequence-generated — in which case no data lines follow); data rows
    render booleans as 1/0 and indexed enums as their index, and omit
    sequence-generated columns.  Shown on three concrete encodings: the
    `+N` case, a 12-row case with two constants, an indexed enum, a boolean
    and an omitted `i+` column, and an aliased nested case. -/
theorem c8_emission_order_amended :
    goMarshal (.vArr [mkMetric 1 "ok", mkMetric 2 "ok", mkMetric 3 "ok"]) =
      .ok "# @status=ok id:i+ +3\n"
    ∧ encodeTabular richRows =
      "# @app=zoon @region=eu cat!alpha-cat0|alpha-cat1|alpha-cat2|alpha-cat3 flag:b id:i+\n0 0\n1 1\n2 0\n3 1\n0 0\n1 1\n2 0\n3 1\n0 0\n1 1\n2 0\n3 1\n"
    ∧ encodeTabular [mkInfra "up" "up", mkInfra "down" "down"] =
      "%i=infrastructure\n# %i.postgres.state:s %i.redis.state:s\nup up\ndown down\n" := by
  exact ⟨rfl, rfl, rfl⟩

/-! ## Claim C3: `parsePrimitive` -/

/-- C3: for every token `t`: `~` yields Null regardless of hint; with hint
    `i`/`i+` the token parses as an integer and a syntactically unparsable
    token yields 0 (no error — the function is total); with hint `b` the
    result is true iff `t ∈ {1, y, true}`; with no hint (`auto`), `y`/`n`
    yield booleans, else a successful integer parse wins, else
    `true`/`false` yield booleans, else the token becomes a string with
    underscores replaced by spaces. -/
theorem c3_parsePrimitive_spec (t ty : String) :
    (t = "~" → parsePrimitive t ty = .pnull)
    ∧ (t ≠ "~" → ty = "i" ∨ ty = "i+" →
        parsePrimitive t ty = .pint (goAtoi t).1
        ∧ (atoiSyntax t = none → parsePrimitive t ty = .pint 0))
    ∧ (t ≠ "~" → ty = "b" →
        parsePrimitive t ty = .pbool (t = "1" || t = "y" || t = "true"))
    ∧ (t ≠ "~" → ty = "auto" →
        ((t = "y" ∨ t = "n") → parsePrimitive t ty = .pbool (t = "y"))
        ∧ (¬(t = "y" ∨ t = "n") → (goAtoi t).2 = true →
            parsePrimitive t ty = .pint (goAtoi t).1)
        ∧ (¬(t = "y" ∨ t = "n") → (goAtoi t).2 = false → (t = "true" ∨ t = "false") →
            parsePrimitive t ty = .pbool (t = "true"))
        ∧ (¬(t = "y" ∨ t = "n") → (goAtoi t).2 = false → ¬(t = "true" ∨ t = "false") →
            parsePrimitive t ty = .pstr (underscoreToSpace t))) := by
  refine ⟨?_, ?_, ?_, ?_⟩
  · intro h; simp [parsePrimitive, h]
  · intro hne hi
    have h1 : parsePrimitive t ty = .pint (goAtoi t).1 := by
      rcases hi with rfl | rfl <;> simp [parsePrimitive, hne]
    refine ⟨h1, fun hs => ?_⟩
    rw [h1]
    simp [goAtoi, hs]
  · rintro hne rfl
    simp [parsePrimitive, hne]
  · rintro hne rfl
    refine ⟨?_, ?_, ?_, ?_⟩
    · intro hyn
      have : (t = "y" || t = "n") = true := by
        rcases hyn with rfl | rfl <;> simp
      simp [parsePrimitive, hne, this]
    · intro hyn hok
      have hb : (t = "y" || t = "n") = false := by
        simp only [Bool.or_eq_false_iff, decide_eq_false_iff_not]
        exact ⟨fun h => hyn (Or.inl h), fun h => hyn (Or.inr h)⟩
      simp [parsePrimitive, hne, hb, hok]
    · intro hyn hfail htf
      have hb : (t = "y" || t = "n") = false := by
        simp only [Bool.or_eq_false_iff, decide_eq_false_iff_not]
        exact ⟨fun h => hyn (Or.inl h), fun h => hyn (Or.inr h)⟩
      have htf' : (t = "true" || t = "false") = true := by
        rcases htf with rfl | rfl <;> simp
      simp [parsePrimitive, hne, hb, hfail, htf']
    · intro hyn hfail htf
      have hb : (t = "y" || t = "n") = false := by
        simp only [Bool.or_eq_false_iff, decide_eq_false_iff_not]
        exact ⟨fun h => hyn (Or.inl h), fun h => hyn (Or.inr h)⟩
      have htf' : (t = "true" || t = "false") = false := by
        simp only [Bool.or_eq_false_iff, decide_eq_false_iff_not]
        exact ⟨fun h => htf (Or.inl h), fun h => htf (Or.inr h)⟩
      simp [parsePrimitive, hne, hb, hfail, htf']

/-- Witness: the C3 theorem at concrete tokens, one per branch. -/
theorem c3_parsePrimitive_spec_witness :
    parsePrimitive "~" "b" = .pnull
    ∧ parsePrimitive "zz" "i" = .pint 0
    ∧ parsePrimitive "true" "b" = .pbool true
    ∧ parsePrimitive "a_b" "auto" = .pstr "a b" := by
  refine ⟨(c3_parsePrimitive_spec "~" "b").1 rfl, ?_, ?_, ?_⟩
  · exact ((c3_parsePrimitive_spec "zz" "i").2.1 (by decide) (Or.inl rfl)).2 (by decide)
  · simpa using (c3_parsePrimitive_spec "true" "b").2.2.1 (by decide) rfl
  · simpa using ((c3_parsePrimitive_spec "a_b" "auto").2.2.2 (by decide) rfl).2.2.2
      (by decide) (by decide) (by decide)

/-! ## Claim C4: field resolution during decode -/

/-- C4 counterexample: tag comparison in `findField` (decode.go:575-577) is
    *exact*, not case-insensitive: a field tagged `uid` is not found under
    the name `UID`, although the two are equal up to case (and the field
    name `UserID` does not fold-match either). -/
theorem c4_counterexample :
    findFieldIdx [("UserID", "uid", "", .tString)] "UID" = none
    ∧ eqFold "uid" "UID" = true := by
  exact ⟨rfl, rfl⟩

/-- C4 (amended): resolving a field tries, per field in declaration order,
    the declared alias tag with an *exact* comparison and then the field
    name case-insensitively, first matching field winning; a name matching
    no field leaves the value unchanged with no error, both at the final
    path segment (`setField`) and in the middle of a path
    (`setDeepField`). -/
theorem c4_field_resolution_amended :
    (∀ (fn zt jt : String) (ty : GoType) (rest : List (String × String × String × GoType))
        (name : String), effTag zt jt ≠ "" → tagHead (effTag zt jt) = name →
        findFieldIdx ((fn, zt, jt, ty) :: rest) name = some 0)
    ∧ (∀ (fn zt jt : String) (ty : GoType) (rest : List (String × String × String × GoType))
        (name : String), eqFold fn name = true →
        findFieldIdx ((fn, zt, jt, ty) :: rest) name = some 0)
    ∧ (∀ (fuel : Nat) (ftys : List (String × String × String × GoType))
        (fvals : List (String × String × String × GoVal)) (name typ valStr : String),
        findFieldIdx ftys name = none →
        setField (fuel + 1) (.tStruct ftys) (.vStruct fvals) name typ valStr =
          .ok (.vStruct fvals))
    ∧ (∀ (fuel : Nat) (ftys : List (String × String × String × GoType))
        (fvals : List (String × String × String × GoVal)) (part p2 : String)
        (parts : List String) (typ valStr : String),
        findFieldIdx ftys part = none →
        setDeepParts (fuel + 1) (.tStruct ftys) (.vStruct fvals) (part :: p2 :: parts)
          typ valStr = .ok (.vStruct fvals)) := by
  refine ⟨?_, ?_, ?_, ?_⟩
  · intro fn zt jt ty rest name h1 h2
    simp [findFieldIdx, findFieldIdxAux, h1, h2]
  · intro fn zt jt ty rest name h
    by_cases htag : effTag zt jt ≠ "" ∧ tagHead (effTag zt jt) = name
    · simp [findFieldIdx, findFieldIdxAux, htag.1, htag.2]
    · simp only [findFieldIdx, findFieldIdxAux, h]
      split <;> rfl
  · intro fuel ftys fvals name typ valStr h
    simp [setField, h]
  · intro fuel ftys fvals part p2 parts typ valStr h
    simp [setDeepParts, h]

/-- Witness: the amended C4 theorem at concrete fields. -/
theorem c4_field_resolution_amended_witness :
    findFieldIdx [("Role", "role", "", .tString)] "role" = some 0
    ∧ findFieldIdx [("Role", "", "", .tString)] "ROLE" = some 0
    ∧ setField 5 (.tStruct [("Role", "role", "", .tString)])
        (.vStruct [("Role", "role", "", .vString "x")]) "missing" "s" "v" =
      .ok (.vStruct [("Role", "role", "", .vString "x")]) :=
  ⟨c4_field_resolution_amended.1 "Role" "role" "" .tString [] "role" (by decide) rfl,
   c4_field_resolution_amended.2.1 "Role" "" "" .tString [] "ROLE" (by decide),
   c4_field_resolution_amended.2.2.1 4 _ _ "missing" "s" "v" (by decide)⟩

/-! ## Claim C5: explicit row count and auto-increment -/

def tAB : GoType := .tStruct [("A", "a", "", .tInt), ("B", "b", "", .tInt)]

def mkAB (x y : Int) : GoVal :=
  .vStruct [("A", "a", "", .vInt x), ("B", "b", "", .vInt y)]

/-- C5 counterexample: with two `i+` columns and `+2`, the single
    per-decode auto-increment counter (decode.go:173, 191-193) is shared
    across the columns, yielding rows (1,2) and (3,4) — not the (1,1),
    (2,2) that "every i+ column takes the values 1..N" demands. -/
theorem c5_counterexample :
    goUnmarshal "# a:i+ b:i+ +2" (.tSlice tAB) (.vArr []) =
      .ok (.vArr [mkAB 1 2, mkAB 3 4])
    ∧ (GoVal.vArr [mkAB 1 2, mkAB 3 4]) ≠ .vArr [mkAB 1 1, mkAB 2 2] := by
  refine ⟨by rfl, ?_⟩
  simp [mkAB]

/-! ## Claim C10: empty and all-whitespace input -/

theorem chTrim_all_space {cs : List Char} (h : ∀ c ∈ cs, isGoSpace c = true) :
    chTrim cs = [] := by
  have h1 : cs.dropWhile isGoSpace = [] := by
    induction cs with
    | nil => rfl
    | cons c rest ih =>
      simp only [List.dropWhile]
      rw [h c (List.mem_cons_self c rest)]
      exact ih (fun x hx => h x (List.mem_cons_of_mem c hx))
  simp [chTrim, h1]

/-- C10: decoding an input that is empty or all whitespace into any
    (non-nil pointer) target returns no error and leaves the pointed-to
    value completely unchanged (decode.go:23-26 returns before dispatch). -/
theorem c10_whitespace_input_no_op (s : String) (ty : GoType) (v : GoVal)
    (h : ∀ c ∈ s.data, isGoSpace c = true) :
    goUnmarshal s ty v = .ok v := by
  have : goTrim s = "" := by
    show (⟨chTrim s.data⟩ : String) = ⟨[]⟩
    rw [chTrim_all_space h]
  simp [goUnmarshal, this]

/-- Witness: the C10 theorem on a concrete whitespace input and target. -/
theorem c10_whitespace_input_no_op_witness :
    goUnmarshal " \t\n  " .tInt (.vInt 7) = .ok (.vInt 7) :=
  c10_whitespace_input_no_op " \t\n  " .tInt (.vInt 7) (by decide)

/-! ## Round-trip of decimal rendering and `strconv.Atoi` -/

theorem natToDigitsAux_zero (fuel : Nat) (acc : List Char) :
    natToDigitsAux fuel 0 acc = acc := by
  cases fuel <;> rfl

theorem digitVal_digitCharOf {k : Nat} (h : k < 10) : digitVal (digitCharOf k) = k := by
  interval_cases k <;> decide

theorem isDigitCh_digitCharOf {k : Nat} (h : k < 10) : isDigitCh (digitCharOf k) = true := by
  interval_cases k <;> decide

/-- Intermediate value of the digit fold, following the division chain. -/
def valPre (a : Nat) : Nat → Nat
  | 0 => a
  | n + 1 => 10 * valPre a ((n + 1) / 10) + (n + 1) % 10
decreasing_by exact Nat.div_lt_self (Nat.succ_pos n) (by omega)

theorem valPre_zero_eq (n : Nat) : valPre 0 n = n := by
  induction n using Nat.strong_induction_on with
  | _ n ih =>
    cases n with
    | zero => simp [valPre]
    | succ m =>
      rw [valPre, ih ((m + 1) / 10) (Nat.div_lt_self (Nat.succ_pos m) (by omega))]
      omega

theorem natToDigitsAux_foldl :
    ∀ (n fuel : Nat) (acc : List Char) (a : Nat), n ≤ fuel →
      (natToDigitsAux fuel n acc).foldl (fun x c => 10 * x + digitVal c) a =
        acc.foldl (fun x c => 10 * x + digitVal c) (valPre a n) := by
  intro n
  induction n using Nat.strong_induction_on with
  | _ n ih =>
    intro fuel acc a hle
    cases n with
    | zero => rw [natToDigitsAux_zero, valPre]
    | succ m =>
      cases fuel with
      | zero => omega
      | succ f =>
        rw [natToDigitsAux]
        · rw [ih ((m + 1) / 10) (Nat.div_lt_self (Nat.succ_pos m) (by omega)) f _ a
            (by have := Nat.div_lt_self (Nat.succ_pos m) (show 1 < 10 by omega); omega)]
          rw [List.foldl_cons, digitVal_digitCharOf (Nat.mod_lt _ (by omega)), valPre]
        · omega

theorem natToDigitsAux_all_digits :
    ∀ (fuel n : Nat) (acc : List Char), (∀ c ∈ acc, isDigitCh c = true) →
      ∀ c ∈ natToDigitsAux fuel n acc, isDigitCh c = true := by
  intro fuel
  induction fuel with
  | zero => intro n acc hacc; simpa [natToDigitsAux] using hacc
  | succ f ih =>
    intro n acc hacc
    cases n with
    | zero => simpa [natToDigitsAux] using hacc
    | succ m =>
      rw [natToDigitsAux]
      · refine ih _ _ (fun c hc => ?_)
        rcases List.mem_cons.mp hc with rfl | hc'
        · exact isDigitCh_digitCharOf (Nat.mod_lt _ (by omega))
        · exact hacc c hc'
      · omega

theorem natToDigitsAux_len :
    ∀ (fuel n : Nat) (acc : List Char),
      acc.length ≤ (natToDigitsAux fuel n acc).length := by
  intro fuel
  induction fuel with
  | zero => intro n acc; simp [natToDigitsAux]
  | succ f ih =>
    intro n acc
    cases n with
    | zero => simp [natToDigitsAux]
    | succ m =>
      rw [natToDigitsAux]
      · calc acc.length ≤ (digitCharOf ((m + 1) % 10) :: acc).length := by simp
          _ ≤ _ := ih _ _
      · omega

theorem natToDecimal_all_digits (n : Nat) :
    ∀ c ∈ (natToDecimal n).data, isDigitCh c = true := by
  unfold natToDecimal
  split
  · intro c hc; simp at hc; subst hc; decide
  · exact natToDigitsAux_all_digits n n [] (by simp)

theorem natToDecimal_ne_empty (n : Nat) : (natToDecimal n).data ≠ [] := by
  unfold natToDecimal
  split
  · simp
  · next h =>
    cases n with
    | zero => exact absurd rfl h
    | succ m =>
      show natToDigitsAux (m + 1) (m + 1) [] ≠ []
      rw [natToDigitsAux]
      · have hlen := natToDigitsAux_len m ((m + 1) / 10) [digitCharOf ((m + 1) % 10)]
        intro hnil
        rw [hnil] at hlen
        simp at hlen
      · omega

theorem parseDigits_natToDecimal (n : Nat) :
    parseDigits (natToDecimal n).data = some n := by
  cases n with
  | zero => decide
  | succ m =>
    have hne := natToDecimal_ne_empty (m + 1)
    have hall : ((natToDecimal (m + 1)).data.all isDigitCh) = true :=
      List.all_eq_true.mpr (fun c hc => natToDecimal_all_digits (m + 1) c hc)
    unfold parseDigits
    rw [if_neg hne, if_pos hall]
    congr 1
    show (natToDecimal (m + 1)).data.foldl (fun a c => 10 * a + digitVal c) 0 = m + 1
    have hdata : (natToDecimal (m + 1)).data = natToDigitsAux (m + 1) (m + 1) [] := by
      unfold natToDecimal
      rw [if_neg (by omega)]
    rw [hdata, natToDigitsAux_foldl (m + 1) (m + 1) [] 0 le_rfl]
    simpa using valPre_zero_eq (m + 1)

theorem isDigitCh_ne_plus {c : Char} (h : isDigitCh c = true) : c ≠ '+' := by
  intro heq; subst heq; simp [isDigitCh] at h

theorem isDigitCh_ne_minus {c : Char} (h : isDigitCh c = true) : c ≠ '-' := by
  intro heq; subst heq; simp [isDigitCh] at h

theorem atoiSyntax_natToDecimal (n : Nat) :
    atoiSyntax (natToDecimal n) = some (n : Int) := by
  have hne := natToDecimal_ne_empty n
  rcases hd : (natToDecimal n).data with _ | ⟨c, cs⟩
  · exact absurd hd hne
  · have hc : isDigitCh c = true :=
      natToDecimal_all_digits n c (hd ▸ List.mem_cons_self c cs)
    unfold atoiSyntax
    rw [hd]
    split
    · next heq => exact absurd (List.head_eq_of_cons_eq heq.symm).symm (isDigitCh_ne_plus hc)
    · next heq => exact absurd (List.head_eq_of_cons_eq heq.symm).symm (isDigitCh_ne_minus hc)
    · rw [← hd, parseDigits_natToDecimal]
      rfl

theorem goAtoi_natToDecimal (n : Nat) (h : (n : Int) ≤ maxInt64) :
    goAtoi (natToDecimal n) = ((n : Int), true) := by
  have hmin : minInt64 ≤ 0 := by norm_num [minInt64]
  simp only [goAtoi, atoiSyntax_natToDecimal]
  rw [if_neg (not_lt.mpr h), if_neg (not_lt.mpr (hmin.trans (Int.natCast_nonneg n)))]

/-! ## Symbolic facts about the character toolkit -/

theorem chSplitNl_no_nl {cs : List Char} (h : ∀ c ∈ cs, c ≠ '\n') :
    chSplitNl cs = [cs] := by
  induction cs with
  | nil => rfl
  | cons c rest ih =>
    have hc : c ≠ '\n' := h c (List.mem_cons_self c rest)
    have ih' := ih (fun x hx => h x (List.mem_cons_of_mem c hx))
    match c, hc with
    | c, hc =>
      rw [chSplitNl]
      · rw [ih']
      · exact fun heq => absurd heq hc

theorem chSplitNl_cons_nl {l rest : List Char} (h : ∀ c ∈ l, c ≠ '\n') :
    chSplitNl (l ++ '\n' :: rest) = l :: chSplitNl rest := by
  induction l with
  | nil => rfl
  | cons c l' ih =>
    have hc : c ≠ '\n' := h c (List.mem_cons_self c l')
    have ih' := ih (fun x hx => h x (List.mem_cons_of_mem c hx))
    show chSplitNl (c :: (l' ++ '\n' :: rest)) = (c :: l') :: chSplitNl rest
    rw [chSplitNl]
    · rw [ih']
    · exact fun heq => absurd heq hc

theorem dropWhile_cons_neg {p : Char → Bool} {c : Char} {cs : List Char}
    (h : p c = false) : (c :: cs).dropWhile p = c :: cs := by
  simp [List.dropWhile, h]

theorem chTrim_eq_self {cs : List Char}
    (h1 : ∀ c, cs.head? = some c → isGoSpace c = false)
    (h2 : ∀ c, cs.getLast? = some c → isGoSpace c = false) : chTrim cs = cs := by
  cases cs with
  | nil => rfl
  | cons c rest =>
    unfold chTrim
    rw [dropWhile_cons_neg (h1 c rfl)]
    have hlast : ∀ x, (c :: rest).reverse.head? = some x → isGoSpace x = false := by
      intro x hx
      rw [List.head?_reverse] at hx
      exact h2 x hx
    rcases hrev : (c :: rest).reverse with _ | ⟨y, ys⟩
    · have := congrArg List.length hrev
      simp at this
    · rw [dropWhile_cons_neg (hlast y (by rw [hrev]; rfl))]
      rw [← hrev, List.reverse_reverse]

theorem chFields_cons_nonspace {c : Char} {rest : List Char} (hc : isGoSpace c = false) :
    chFields (c :: rest) = chFieldsStep c rest (chFields rest) := by
  rw [chFields, if_neg (by simp [hc])]

theorem chFields_cons_space {c : Char} {rest : List Char} (hc : isGoSpace c = true) :
    chFields (c :: rest) = chFields rest := by
  rw [chFields, if_pos hc]

theorem chFields_single {cs : List Char} (hne : cs ≠ [])
    (h : ∀ c ∈ cs, isGoSpace c = false) : chFields cs = [cs] := by
  induction cs with
  | nil => exact absurd rfl hne
  | cons c rest ih =>
    have hc : isGoSpace c = false := h c (List.mem_cons_self c rest)
    rw [chFields_cons_nonspace hc]
    cases rest with
    | nil => rfl
    | cons d rest' =>
      have hd : isGoSpace d = false := h d (by simp)
      rw [ih (by simp) (fun x hx => h x (List.mem_cons_of_mem c hx))]
      simp [chFieldsStep, hd]

theorem chFields_token {t rest : List Char} (hne : t ≠ [])
    (h : ∀ c ∈ t, isGoSpace c = false) :
    chFields (t ++ ' ' :: rest) = t :: chFields rest := by
  induction t with
  | nil => exact absurd rfl hne
  | cons c t' ih =>
    have hc : isGoSpace c = false := h c (List.mem_cons_self c t')
    show chFields (c :: (t' ++ ' ' :: rest)) = (c :: t') :: chFields rest
    rw [chFields_cons_nonspace hc]
    cases t' with
    | nil =>
      show chFieldsStep c (' ' :: rest) (chFields (' ' :: rest)) = [c] :: chFields rest
      rw [chFields_cons_space (by decide)]
      rcases hcf : chFields rest with _ | ⟨t0, ts0⟩
      · rfl
      · simp [chFieldsStep, isGoSpace]
    | cons d t'' =>
      have hd : isGoSpace d = false := h d (by simp)
      rw [ih (by simp) (fun x hx => h x (List.mem_cons_of_mem c hx))]
      simp [chFieldsStep, hd]


/-! ## Claim C5 (amended): explicit row counts with auto-increment -/

theorem chStartsWith_nil (cs : List Char) : chStartsWith cs [] = true := by
  cases cs <;> rfl

theorem natToDecimal_ne_tilde (n : Nat) : natToDecimal n ≠ "~" := by
  intro h
  have hd : (natToDecimal n).data = ['~'] := by rw [h]
  have h2 := natToDecimal_all_digits n '~' (by rw [hd]; simp)
  exact absurd h2 (by decide)

theorem digit_not_space {c : Char} (h : isDigitCh c = true) : isGoSpace c = false := by
  by_contra hsp
  rw [Bool.not_eq_false] at hsp
  simp only [isGoSpace, Bool.or_eq_true, decide_eq_true_eq] at hsp
  rcases hsp with (((((((rfl | rfl) | rfl) | rfl) | rfl) | rfl) | rfl) | rfl) <;>
    exact absurd h (by decide)

theorem digit_not_nl {c : Char} (h : isDigitCh c = true) : c ≠ '\n' := by
  rintro rfl
  exact absurd h (by decide)

theorem natToDecimal_no_brace (n : Nat) :
    goHasPfx (natToDecimal n) "\x7b" = false := by
  rcases hd : (natToDecimal n).data with _ | ⟨c, cs⟩
  · exact absurd hd (natToDecimal_ne_empty n)
  · have hc : isDigitCh c = true := natToDecimal_all_digits n c (by rw [hd]; simp)
    show chStartsWith (natToDecimal n).data ['\x7b'] = false
    rw [hd]
    show (decide (c = '\x7b') && chStartsWith cs []) = false
    rw [chStartsWith_nil, Bool.and_true]
    exact decide_eq_false (by rintro rfl; exact absurd hc (by decide))

/-- The two header descriptors produced for `@status=ok` and `id:i+`. -/
def statusHF : HeaderField :=
  { name := "status", typ := "s", val := "ok", indexed := false, options := [] }

def idHF : HeaderField :=
  { name := "id", typ := "i+", val := "", indexed := false, options := [] }

theorem pht_status (a : List (String × String)) (toks : List String) (er : Int)
    (hs cs : List HeaderField) :
    parseHeaderTokens a ("@status=ok" :: toks) er hs cs =
      parseHeaderTokens a toks er hs (cs ++ [statusHF]) := rfl

theorem pht_id (a : List (String × String)) (toks : List String) (er : Int)
    (hs cs : List HeaderField) :
    parseHeaderTokens a ("id:i+" :: toks) er hs cs =
      parseHeaderTokens a toks er (hs ++ [idHF]) cs := rfl

theorem pht_plus (N : Nat) (h : (N : Int) ≤ maxInt64) (a : List (String × String))
    (er : Int) (hs cs : List HeaderField) :
    parseHeaderTokens a [⟨'+' :: (natToDecimal N).data⟩] er hs cs = ((N : Int), hs, cs) := by
  have hpfx : goHasPfx ⟨'+' :: (natToDecimal N).data⟩ "+" = true := by
    show (decide (('+' : Char) = '+') && chStartsWith (natToDecimal N).data []) = true
    rw [chStartsWith_nil]
    rfl
  rw [parseHeaderTokens, if_pos hpfx]
  rw [show (⟨List.drop 1 (⟨'+' :: (natToDecimal N).data⟩ : String).data⟩ : String) =
      natToDecimal N from rfl]
  rw [goAtoi_natToDecimal N h]
  rfl

/-- The element value after the `@status=ok` constant has been applied to a
    fresh zero `Metric`. -/
def c5v1 : GoVal :=
  .vStruct [("ID", "id", "", .vInt 0), ("Status", "status", "", .vString "ok")]

theorem c5_const_step (f : Nat) :
    applyConstants (f + 3) tMetric (zeroVal tMetric) [statusHF] = .ok c5v1 := rfl

theorem c5_setField_id (f : Nat) (val : String) (hne : val ≠ "~")
    (hnb : goHasPfx val "\x7b" = false) :
    setField (f + 1) tMetric c5v1 "id" "i+" val =
      .ok (mkMetric (goAtoi val).1 "ok") := by
  have hpp : parsePrimitive val "i+" = .pint (goAtoi val).1 := by
    rw [parsePrimitive, if_neg hne]
    rfl
  show (if goHasPfx val "\x7b" = true then _ else _) = _
  rw [hnb, if_neg Bool.false_ne_true, hpp]
  rfl

theorem c5_headers_step (f a : Nat) (h : (a : Int) + 1 ≤ maxInt64) :
    applyHeaders (f + 3) tMetric c5v1 [idHF] [] a =
      .ok (mkMetric ((a : Int) + 1) "ok", a + 1) := by
  have hne : natToDecimal (a + 1) ≠ "~" := natToDecimal_ne_tilde (a + 1)
  have hnb : goHasPfx (natToDecimal (a + 1)) "\x7b" = false := natToDecimal_no_brace (a + 1)
  have hback : ((a + 1 : Nat) : Int) = (a : Int) + 1 := by push_cast; ring
  have hgoatoi : goAtoi (natToDecimal (a + 1)) = ((a : Int) + 1, true) := by
    rw [goAtoi_natToDecimal (a + 1) (by rw [hback]; exact h), hback]
  have hav : applyHeaderVal (f + 3) tMetric c5v1 idHF (natToDecimal (a + 1)) =
      .ok (mkMetric ((a : Int) + 1) "ok") := by
    rw [applyHeaderVal, if_neg hne]
    show setField (f + 1) tMetric c5v1 "id" "i+" (natToDecimal (a + 1)) = _
    rw [c5_setField_id f (natToDecimal (a + 1)) hne hnb, hgoatoi]
  rw [applyHeaders, if_pos (show idHF.typ = "i+" from rfl)]
  rw [hav]
  rfl

theorem c5_row_step (f a : Nat) (acc : List GoVal) (h : (a : Int) + 1 ≤ maxInt64) :
    processRow (f + 3) tMetric false [statusHF] [idHF] a acc [] =
      .ok (a + 1, acc ++ [mkMetric ((a : Int) + 1) "ok"]) := by
  simp only [processRow, c5_const_step f, c5_headers_step f a h]
  rfl

theorem c5_loop_lemma (f : Nat) : ∀ (n a : Nat) (acc : List GoVal),
    (a : Int) + (n : Int) ≤ maxInt64 →
    explicitRowsLoop (f + 3) tMetric false [statusHF] [idHF] n a acc =
      .ok (a + n, acc ++ (List.range n).map
        (fun i : Nat => mkMetric ((a : Int) + (i : Int) + 1) "ok")) := by
  intro n
  induction n with
  | zero => intro a acc _; simp [explicitRowsLoop]
  | succ m ih =>
    intro a acc hle
    rw [explicitRowsLoop]
    have hstep := c5_row_step f a acc (by push_cast at hle ⊢; omega)
    simp only [hstep]
    rw [ih (a + 1) (acc ++ [mkMetric ((a : Int) + 1) "ok"]) (by push_cast at hle ⊢; omega)]
    have hn : a + 1 + m = a + (m + 1) := by omega
    have hlist : (List.range (m + 1)).map
        (fun i : Nat => mkMetric ((a : Int) + (i : Int) + 1) "ok") =
        mkMetric ((a : Int) + 1) "ok" ::
          (List.range m).map
            (fun i : Nat => mkMetric (((a + 1 : Nat) : Int) + (i : Int) + 1) "ok") := by
      rw [List.range_succ_eq_map, List.map_cons, List.map_map]
      rw [List.cons_eq_cons]
      refine ⟨by norm_num, ?_⟩
      apply List.map_congr_left
      intro i _
      simp only [Function.comp_apply]
      congr 1
      push_cast
      ring
    rw [hn, hlist]
    simp [List.append_assoc]

/-- The tabular document of the amended C5 statement: a constant column, a
    bare auto-increment column, and an explicit row count. -/
def c5doc (N : Nat) : String := "# @status=ok id:i+ +" ++ natToDecimal N

theorem c5doc_trim (N : Nat) : goTrim (c5doc N) = c5doc N := by
  have hd : (c5doc N).data = "# @status=ok id:i+ +".data ++ (natToDecimal N).data := rfl
  have hhead : ∀ c, (c5doc N).data.head? = some c → isGoSpace c = false := by
    intro c hc
    have h0 : (c5doc N).data.head? = some '#' := rfl
    rw [h0] at hc
    injection hc with hc
    subst hc
    decide
  have hlast : ∀ c, (c5doc N).data.getLast? = some c → isGoSpace c = false := by
    intro c hc
    have hne := natToDecimal_ne_empty N
    rw [hd, List.getLast?_append_of_ne_nil _ hne] at hc
    rw [List.getLast?_eq_getLast_of_ne_nil hne] at hc
    injection hc with hc
    subst hc
    exact digit_not_space (natToDecimal_all_digits N _ (List.getLast_mem hne))
  show (⟨chTrim (c5doc N).data⟩ : String) = c5doc N
  rw [chTrim_eq_self hhead hlast]

theorem c5doc_lines (N : Nat) : goLines (c5doc N) = [c5doc N] := by
  have hd : (c5doc N).data = "# @status=ok id:i+ +".data ++ (natToDecimal N).data := rfl
  have hno : ∀ c ∈ (c5doc N).data, c ≠ '\n' := by
    intro c hc
    rw [hd, List.mem_append] at hc
    rcases hc with hc | hc
    · exact (by decide : ∀ x ∈ "# @status=ok id:i+ +".data, x ≠ '\n') c hc
    · exact digit_not_nl (natToDecimal_all_digits N c hc)
  unfold goLines
  rw [chSplitNl_no_nl hno]
  rfl

theorem c5doc_ne_empty (N : Nat) : ¬ (c5doc N = "") := by
  intro h
  have h2 := congrArg String.data h
  rw [show (c5doc N).data = "# @status=ok id:i+ +".data ++ (natToDecimal N).data from rfl] at h2
  simp at h2

theorem c5doc_findHeader (N : Nat) :
    findHeaderLoop (goLines (c5doc N)) [] = .ok ([], c5doc N, []) := by
  have hpct : ¬ (goHasPfx (c5doc N) "%" = true) := by
    simp only [show goHasPfx (c5doc N) "%" = false from rfl]
    exact Bool.false_ne_true
  rw [c5doc_lines]
  simp only [findHeaderLoop, c5doc_trim]
  rw [if_neg (c5doc_ne_empty N), if_neg hpct,
    if_pos (show goHasPfx (c5doc N) "#" = true from rfl)]

theorem c5doc_fields (N : Nat) :
    goFields ⟨(c5doc N).data.drop 2⟩ =
      ["@status=ok", "id:i+", ⟨'+' :: (natToDecimal N).data⟩] := by
  have hT : (⟨(c5doc N).data.drop 2⟩ : String).data =
      "@status=ok".data ++ ' ' :: ("id:i+".data ++ ' ' :: ('+' :: (natToDecimal N).data)) := rfl
  have hall : ∀ c ∈ ('+' :: (natToDecimal N).data), isGoSpace c = false := by
    intro c hc
    rcases List.mem_cons.mp hc with rfl | hc
    · decide
    · exact digit_not_space (natToDecimal_all_digits N c hc)
  have h3 : chFields ('+' :: (natToDecimal N).data) = ['+' :: (natToDecimal N).data] :=
    chFields_single (by simp) hall
  unfold goFields
  rw [hT, chFields_token (by decide) (by decide), chFields_token (by decide) (by decide), h3]
  rfl

theorem c5doc_tokens (N : Nat) (h : (N : Int) ≤ maxInt64) :
    parseHeaderTokens [] (goFields ⟨(c5doc N).data.drop 2⟩) (-1) [] [] =
      ((N : Int), [idHF], [statusHF]) := by
  rw [c5doc_fields, pht_status, pht_id, pht_plus N h]
  rfl

/-- C5 (amended): decoding a tabular document whose header declares the
    constant `@status=ok`, the single auto-increment column `id:i+` and an
    explicit row count `+N` (N > 0, within int64), with no data lines,
    produces exactly N rows; the `id` column consumes no row tokens and is
    filled from the per-decode counter with the values 1..N, and the
    constant is applied to every row. -/
theorem c5_explicit_rows_amended (N : Nat) (h1 : 0 < N) (h2 : (N : Int) ≤ maxInt64) :
    goUnmarshal (c5doc N) (.tSlice tMetric) (.vArr []) =
      .ok (.vArr ((List.range N).map (fun i : Nat => mkMetric ((i : Int) + 1) "ok"))) := by
  simp only [goUnmarshal, c5doc_trim]
  rw [if_neg (c5doc_ne_empty N)]
  rw [if_pos (show (goHasPfx (c5doc N) "#" || goHasPfx (c5doc N) "%") = true from rfl)]
  show (decodeTabular ((c5doc N).data.length + 16) (c5doc N) tMetric false).map GoVal.vArr = _
  rw [show (c5doc N).data.length + 16 = ((c5doc N).data.length + 13) + 3 from by omega]
  simp only [decodeTabular, c5doc_findHeader, c5doc_tokens N h2]
  rw [if_pos (show (0 : Int) < (N : Int) from by exact_mod_cast h1)]
  rw [show ((N : Int)).toNat = N from by simp]
  rw [c5_loop_lemma ((c5doc N).data.length + 13) N 0 [] (by simpa using h2)]
  simp only [dataRowsLoop, List.nil_append]
  simp [Except.map]

theorem c5_explicit_rows_amended_witness :
    0 < 3 ∧ ((3 : Nat) : Int) ≤ maxInt64 ∧
      goUnmarshal (c5doc 3) (.tSlice tMetric) (.vArr []) =
        .ok (.vArr ((List.range 3).map (fun i : Nat => mkMetric ((i : Int) + 1) "ok"))) :=
  ⟨by decide, by decide, c5_explicit_rows_amended 3 (by decide) (by decide)⟩

/-! ## Claim C1: the round-trip property -/

/-- A record with one nullable field, `Email *string` tagged `email`. -/
def tEm : GoType := .tStruct [("Email", "email", "", .tPtr .tString)]

def emailRow : GoVal := .vStruct [("Email", "email", "", .vPtr (.vString "x"))]

/-- C1 counterexample: a one-row array over a nullable string field
    (`Email *string` holding `"x"`) encodes to `# email:s` / `x`, but
    decoding that document yields a nil `Email`: `parsePrimitive` returns
    the plain string `x`, a Go `string` is not convertible to `*string`,
    and `setField` silently drops the assignment (decode.go:545-553), so
    `Unmarshal(Marshal(x)) ≠ x` for this array of flat records with
    primitive (nullable-reference) fields. -/
theorem c1_counterexample :
    goMarshal (.vArr [emailRow]) = .ok "# email:s\nx\n" ∧
    goUnmarshal "# email:s\nx\n" (.tSlice tEm) (.vArr []) =
      .ok (.vArr [.vStruct [("Email", "email", "", .vNilPtr)]]) ∧
    GoVal.vStruct [("Email", "email", "", .vNilPtr)] ≠ emailRow :=
  ⟨rfl, rfl, by simp [emailRow]⟩

/-- A record with one non-nullable `int64` field, `Num int64` tagged
    `num`. -/
def tNum : GoType := .tStruct [("Num", "num", "", .tInt)]

def mkNum (v : Int) : GoVal := .vStruct [("Num", "num", "", .vInt v)]

theorem intToDecimal_nonneg (v : Int) (h : 0 ≤ v) :
    intToDecimal v = natToDecimal v.natAbs := by
  rw [intToDecimal, if_neg (not_lt.mpr h)]

theorem intToDecimal_negative (v : Int) (h : v < 0) :
    intToDecimal v = "-" ++ natToDecimal v.natAbs := by
  rw [intToDecimal, if_pos h]

theorem atoiSyntax_neg (m : Nat) :
    atoiSyntax ("-" ++ natToDecimal m) = some (-(m : Int)) := by
  show (parseDigits (natToDecimal m).data).map (fun n => -(n : Int)) = some (-(m : Int))
  rw [parseDigits_natToDecimal]
  rfl

theorem atoiSyntax_intToDecimal (v : Int) :
    atoiSyntax (intToDecimal v) = some v := by
  by_cases hv : v < 0
  · rw [intToDecimal_negative v hv, atoiSyntax_neg]
    congr 1
    omega
  · rw [intToDecimal_nonneg v (not_lt.mp hv), atoiSyntax_natToDecimal]
    congr 1
    omega

theorem goAtoi_intToDecimal (v : Int) (hlo : minInt64 ≤ v) (hhi : v ≤ maxInt64) :
    goAtoi (intToDecimal v) = (v, true) := by
  simp only [goAtoi, atoiSyntax_intToDecimal]
  rw [if_neg (not_lt.mpr hhi), if_neg (not_lt.mpr hlo)]

theorem intToDecimal_chars (v : Int) :
    ∀ c ∈ (intToDecimal v).data, c = '-' ∨ isDigitCh c = true := by
  intro c hc
  by_cases hv : v < 0
  · rw [intToDecimal_negative v hv,
      show ("-" ++ natToDecimal v.natAbs).data = '-' :: (natToDecimal v.natAbs).data from rfl]
      at hc
    rcases List.mem_cons.mp hc with rfl | hc
    · exact Or.inl rfl
    · exact Or.inr (natToDecimal_all_digits _ c hc)
  · rw [intToDecimal_nonneg v (not_lt.mp hv)] at hc
    exact Or.inr (natToDecimal_all_digits _ c hc)

theorem dashdigit_not_space {c : Char} (h : c = '-' ∨ isDigitCh c = true) :
    isGoSpace c = false := by
  rcases h with rfl | h
  · decide
  · exact digit_not_space h

theorem dashdigit_not_nl {c : Char} (h : c = '-' ∨ isDigitCh c = true) : c ≠ '\n' := by
  rcases h with rfl | h
  · decide
  · exact digit_not_nl h

theorem dashdigit_ne {c : Char} (h : c = '-' ∨ isDigitCh c = true) :
    c ≠ ' ' ∧ c ≠ '"' ∧ c ≠ '[' := by
  rcases h with rfl | h
  · refine ⟨by decide, by decide, by decide⟩
  · refine ⟨?_, ?_, ?_⟩ <;> (rintro rfl; exact absurd h (by decide))

theorem intToDecimal_ne_empty (v : Int) : (intToDecimal v).data ≠ [] := by
  by_cases hv : v < 0
  · rw [intToDecimal_negative v hv,
      show ("-" ++ natToDecimal v.natAbs).data = '-' :: (natToDecimal v.natAbs).data from rfl]
    simp
  · rw [intToDecimal_nonneg v (not_lt.mp hv)]
    exact natToDecimal_ne_empty _

theorem intToDecimal_ne_blank (v : Int) : ¬ (intToDecimal v = "") := by
  intro h
  exact absurd (congrArg String.data h) (intToDecimal_ne_empty v)

theorem intToDecimal_ne_tilde (v : Int) : intToDecimal v ≠ "~" := by
  intro h
  have hd : (intToDecimal v).data = ['~'] := by rw [h]
  rcases intToDecimal_chars v '~' (by rw [hd]; simp) with h' | h' <;>
    exact absurd h' (by decide)

theorem memOfHead {l : List Char} {a : Char} (h : l.head? = some a) : a ∈ l := by
  cases l with
  | nil => simp at h
  | cons x xs =>
    simp at h
    subst h
    exact List.mem_cons_self _ _

theorem memOfLast {l : List Char} {a : Char} (h : l.getLast? = some a) : a ∈ l := by
  have hne : l ≠ [] := by rintro rfl; simp at h
  rw [List.getLast?_eq_getLast_of_ne_nil hne] at h
  simp at h
  exact h ▸ List.getLast_mem hne

theorem intToDecimal_trim (v : Int) : goTrim (intToDecimal v) = intToDecimal v := by
  have h1 : ∀ c, (intToDecimal v).data.head? = some c → isGoSpace c = false :=
    fun c hc => dashdigit_not_space (intToDecimal_chars v c (memOfHead hc))
  have h2 : ∀ c, (intToDecimal v).data.getLast? = some c → isGoSpace c = false :=
    fun c hc => dashdigit_not_space (intToDecimal_chars v c (memOfLast hc))
  show (⟨chTrim (intToDecimal v).data⟩ : String) = intToDecimal v
  rw [chTrim_eq_self h1 h2]

theorem intToDecimal_no_brace (v : Int) :
    goHasPfx (intToDecimal v) "\x7b" = false := by
  rcases hd : (intToDecimal v).data with _ | ⟨c, cs⟩
  · exact absurd hd (intToDecimal_ne_empty v)
  · have hc := intToDecimal_chars v c (by rw [hd]; simp)
    show chStartsWith (intToDecimal v).data ['\x7b'] = false
    rw [hd]
    show (decide (c = '\x7b') && chStartsWith cs []) = false
    rw [chStartsWith_nil, Bool.and_true]
    refine decide_eq_false ?_
    rintro rfl
    rcases hc with h' | h' <;> exact absurd h' (by decide)

theorem intToDecimal_getLast_digit (v : Int) :
    ∀ c, (intToDecimal v).data.getLast? = some c → isDigitCh c = true := by
  intro c hc
  by_cases hv : v < 0
  · rw [intToDecimal_negative v hv,
      show ("-" ++ natToDecimal v.natAbs).data = ['-'] ++ (natToDecimal v.natAbs).data from rfl,
      List.getLast?_append_of_ne_nil _ (natToDecimal_ne_empty _)] at hc
    exact natToDecimal_all_digits _ c (memOfLast hc)
  · rw [intToDecimal_nonneg v (not_lt.mp hv)] at hc
    exact natToDecimal_all_digits _ c (memOfLast hc)

theorem tokRowAux_plain : ∀ (cs cur : List Char), (∀ c ∈ cs, c ≠ ' ') →
    tokRowAux cs 1 cur = [cur ++ cs] := by
  intro cs
  induction cs with
  | nil => intro cur _; simp [tokRowAux]
  | cons c rest ih =>
    intro cur h
    show (if c = ' ' then cur :: tokRowAux rest 0 []
      else tokRowAux rest 1 (cur ++ [c])) = [cur ++ (c :: rest)]
    rw [if_neg (h c (List.mem_cons_self c rest))]
    rw [ih (cur ++ [c]) (fun x hx => h x (List.mem_cons_of_mem c hx))]
    simp

theorem tokenizeRow_intToDecimal (v : Int) :
    tokenizeRow (intToDecimal v) = [intToDecimal v] := by
  rcases hd : (intToDecimal v).data with _ | ⟨c, cs⟩
  · exact absurd hd (intToDecimal_ne_empty v)
  · have hch : ∀ x ∈ (intToDecimal v).data, x = '-' ∨ isDigitCh x = true :=
      intToDecimal_chars v
    obtain ⟨hsp, hq, hb⟩ := dashdigit_ne (hch c (by rw [hd]; simp))
    have h0 : tokRowAux (c :: cs) 0 [] = [[c] ++ cs] := by
      show (if c = ' ' then tokRowAux cs 0 [] else if c = '"' then tokRowAux cs 2 []
        else if c = '[' then tokRowAux cs 4 ['['] else tokRowAux cs 1 [c]) = [[c] ++ cs]
      rw [if_neg hsp, if_neg hq, if_neg hb]
      exact tokRowAux_plain cs [c]
        (fun x hx => (dashdigit_ne (hch x (by rw [hd]; simp [hx]))).1)
    have hv : intToDecimal v = (⟨c :: cs⟩ : String) := by rw [← hd]
    rw [hv]
    unfold tokenizeRow
    show (tokRowAux (c :: cs) 0 []).map (fun l => (⟨l⟩ : String)) = [⟨c :: cs⟩]
    rw [h0]
    rfl

theorem foldl_fixed {α β : Type} (f : α → β → α) (a : α) (l : List β)
    (h : ∀ x ∈ l, f a x = a) : List.foldl f a l = a := by
  induction l with
  | nil => rfl
  | cons x rest ih =>
    rw [List.foldl_cons, h x (List.mem_cons_self x rest)]
    exact ih (fun y hy => h y (List.mem_cons_of_mem x hy))

theorem strExt {s t : String} (h : s.data = t.data) : s = t :=
  congrArg String.mk h

theorem foldl_append_data (ss : List String) (acc : String) :
    (ss.foldl (· ++ ·) acc).data = acc.data ++ (ss.map String.data).flatten := by
  induction ss generalizing acc with
  | nil => simp
  | cons s rest ih =>
    rw [List.foldl_cons, ih]
    show (acc ++ s).data ++ _ = _
    rw [show (acc ++ s).data = acc.data ++ s.data from rfl]
    simp

theorem chTrim_append_nl {cs : List Char} (hne : cs ≠ [])
    (h1 : ∀ c, cs.head? = some c → isGoSpace c = false)
    (h2 : ∀ c, cs.getLast? = some c → isGoSpace c = false) :
    chTrim (cs ++ ['\n']) = cs := by
  cases cs with
  | nil => exact absurd rfl hne
  | cons c rest =>
    unfold chTrim
    rw [show (c :: rest) ++ ['\n'] = c :: (rest ++ ['\n']) from rfl]
    rw [dropWhile_cons_neg (h1 c rfl)]
    have hrev : (c :: (rest ++ ['\n'])).reverse = '\n' :: (c :: rest).reverse := by
      rw [show c :: (rest ++ ['\n']) = (c :: rest) ++ ['\n'] from rfl, List.reverse_append]
      rfl
    rw [hrev]
    rw [show List.dropWhile isGoSpace ('\n' :: (c :: rest).reverse) =
      List.dropWhile isGoSpace ((c :: rest).reverse) from by
        simp [List.dropWhile, show isGoSpace '\n' = true from rfl]]
    rcases hrev2 : (c :: rest).reverse with _ | ⟨y, ys⟩
    · have := congrArg List.length hrev2
      simp at this
    · have hy : isGoSpace y = false := by
        apply h2
        rw [← List.head?_reverse, hrev2]
        rfl
      rw [dropWhile_cons_neg hy, ← hrev2, List.reverse_reverse]

/-- The document produced for a list of `Num` records: header `# num:i`,
    then one decimal per line. -/
def c1doc (l : List Int) : String :=
  "# num:i\n" ++ ⟨(l.map (fun v => (intToDecimal v).data ++ ['\n'])).flatten⟩

/-- The character tail of the trimmed document: each data line preceded by
    its separating newline. -/
def c1mid (l : List Int) : List Char :=
  (l.map (fun v => '\n' :: (intToDecimal v).data)).flatten

theorem c1_nl_shift (l : List Int) :
    '\n' :: (l.map (fun v => (intToDecimal v).data ++ ['\n'])).flatten =
      c1mid l ++ ['\n'] := by
  induction l with
  | nil => rfl
  | cons v rest ih =>
    show '\n' :: (((intToDecimal v).data ++ ['\n']) ++
        (rest.map (fun v => (intToDecimal v).data ++ ['\n'])).flatten) =
      (('\n' :: (intToDecimal v).data) ++ c1mid rest) ++ ['\n']
    simp only [List.append_assoc, ← ih]
    simp

theorem c1doc_data (l : List Int) :
    (c1doc l).data = ("# num:i".data ++ c1mid l) ++ ['\n'] := by
  show "# num:i".data ++ '\n' ::
      (l.map (fun v => (intToDecimal v).data ++ ['\n'])).flatten = _
  rw [c1_nl_shift, List.append_assoc]

theorem c1mid_ne_nil (l : List Int) (hl : l ≠ []) : c1mid l ≠ [] := by
  cases l with
  | nil => exact absurd rfl hl
  | cons v rest =>
    show ('\n' :: (intToDecimal v).data) ++ c1mid rest ≠ []
    simp

theorem c1mid_getLast (l : List Int) :
    ∀ c, (c1mid l).getLast? = some c → isDigitCh c = true := by
  induction l with
  | nil => intro c hc; simp [c1mid] at hc
  | cons v rest ih =>
    intro c hc
    by_cases hr : rest = []
    · subst hr
      rw [show c1mid [v] = ['\n'] ++ (intToDecimal v).data from by simp [c1mid]] at hc
      rw [List.getLast?_append_of_ne_nil _ (intToDecimal_ne_empty v)] at hc
      exact intToDecimal_getLast_digit v c hc
    · rw [show c1mid (v :: rest) = ('\n' :: (intToDecimal v).data) ++ c1mid rest from rfl,
        List.getLast?_append_of_ne_nil _ (c1mid_ne_nil rest hr)] at hc
      exact ih c hc

theorem c1doc_trim (l : List Int) (hl : l ≠ []) :
    goTrim (c1doc l) = ⟨"# num:i".data ++ c1mid l⟩ := by
  have h1 : ∀ c, ("# num:i".data ++ c1mid l).head? = some c → isGoSpace c = false := by
    intro c hc
    have h0 : ("# num:i".data ++ c1mid l).head? = some '#' := rfl
    rw [h0] at hc
    injection hc with hc
    subst hc
    decide
  have h2 : ∀ c, ("# num:i".data ++ c1mid l).getLast? = some c → isGoSpace c = false := by
    intro c hc
    rw [List.getLast?_append_of_ne_nil _ (c1mid_ne_nil l hl)] at hc
    exact digit_not_space (c1mid_getLast l c hc)
  have hne : "# num:i".data ++ c1mid l ≠ [] := by simp
  show (⟨chTrim (c1doc l).data⟩ : String) = _
  rw [c1doc_data, chTrim_append_nl hne h1 h2]

theorem c1_splitMid : ∀ (l : List Int) (d : List Char), (∀ c ∈ d, c ≠ '\n') →
    chSplitNl (d ++ c1mid l) = d :: l.map (fun v => (intToDecimal v).data) := by
  intro l
  induction l with
  | nil =>
    intro d hd
    rw [show c1mid [] = [] from rfl, List.append_nil, chSplitNl_no_nl hd]
    rfl
  | cons v rest ih =>
    intro d hd
    rw [show d ++ c1mid (v :: rest) =
      d ++ '\n' :: ((intToDecimal v).data ++ c1mid rest) from rfl]
    rw [chSplitNl_cons_nl hd]
    rw [ih (intToDecimal v).data
      (fun c hc => dashdigit_not_nl (intToDecimal_chars v c hc))]
    rfl

theorem c1_lines (l : List Int) :
    goLines ⟨"# num:i".data ++ c1mid l⟩ =
      "# num:i" :: l.map (fun v => intToDecimal v) := by
  unfold goLines
  show (chSplitNl ("# num:i".data ++ c1mid l)).map (fun cs => (⟨cs⟩ : String)) = _
  rw [c1_splitMid l "# num:i".data (by decide)]
  show (⟨"# num:i".data⟩ : String) ::
    (l.map (fun v => (intToDecimal v).data)).map (fun cs => (⟨cs⟩ : String)) = _
  rw [List.map_map]
  rfl

theorem c1_flat (l : List Int) :
    (l.map mkNum).map (flattenValue "") =
      l.map (fun v => [("num", GoVal.vInt v)]) := by
  rw [List.map_map]
  rfl

theorem c1_keys (l : List Int) :
    (l.map (fun v => [("num", GoVal.vInt v)])).flatMap (fun r => r.map Prod.fst) =
      l.map (fun _ => "num") := by
  induction l with
  | nil => rfl
  | cons v rest ih =>
    simp only [List.map_cons, List.flatMap_cons, ih]
    rfl

theorem c1_dedup_tail (l : List Int) :
    dedupAux ["num"] (l.map (fun _ => "num")) = [] := by
  induction l with
  | nil => rfl
  | cons v rest ih =>
    show dedupAux ["num"] ("num" :: rest.map (fun _ => "num")) = []
    rw [dedupAux, if_pos (by decide)]
    exact ih

theorem c1_kind (x : Int) (rest : List Int) :
    colKindSeq "num" ((x :: rest).map (fun v => [("num", GoVal.vInt v)])) =
      (.kInt, false) := by
  unfold colKindSeq
  rw [List.map_cons, List.foldl_cons]
  refine foldl_fixed _ _ _ ?_
  intro row hrow
  obtain ⟨v, _, rfl⟩ := List.mem_map.mp hrow
  rfl

theorem c1_constSplit (v0 v1 : Int) (vs : List Int) (h01 : v0 ≠ v1) :
    constSplit ((v0 :: v1 :: vs).map (fun v => [("num", GoVal.vInt v)])) ["num"] =
      ([], ["num"]) := by
  have hcond : (((v0 :: v1 :: vs).map (fun v => [("num", GoVal.vInt v)])).all
      (fun row => goValBEq (rowLookup row "num") (GoVal.vInt v0))) = false := by
    simp only [List.map_cons, List.all_cons]
    rw [show goValBEq (rowLookup [("num", GoVal.vInt v1)] "num") (GoVal.vInt v0) =
      (v1 == v0) from rfl]
    rw [beq_eq_false_iff_ne.mpr (Ne.symm h01)]
    simp
  simp only [constSplit]
  rw [show rowLookup ((((v0 :: v1 :: vs).map
      (fun v => [("num", GoVal.vInt v)])).headD [])) "num" = GoVal.vInt v0 from rfl]
  rw [hcond]
  simp

theorem c1_rows (l : List Int) :
    (l.map (fun v => [("num", GoVal.vInt v)])).map
      (fun row => joinSp (rowTokens row
        [("num", GoKind.kInt, ⟨"i", false, [], false⟩)]) ++ "\n") =
      l.map (fun v => intToDecimal v ++ "\n") := by
  rw [List.map_map]
  rfl

theorem c1_datafold (l : List Int) :
    (l.map (fun v => intToDecimal v ++ "\n")).foldl (· ++ ·) "" =
      (⟨(l.map (fun v => (intToDecimal v).data ++ ['\n'])).flatten⟩ : String) := by
  apply strExt
  rw [foldl_append_data]
  show [] ++ _ = _
  rw [List.nil_append, List.map_map]
  rfl

theorem c1_encode (v0 v1 : Int) (vs : List Int) (h01 : v0 ≠ v1) :
    goMarshal (.vArr ((v0 :: v1 :: vs).map mkNum)) = .ok (c1doc (v0 :: v1 :: vs)) := by
  show Except.ok (encodeTabular ((v0 :: v1 :: vs).map mkNum)) = _
  congr 1
  simp only [encodeTabular]
  rw [if_neg (show ¬(((v0 :: v1 :: vs).map mkNum).length = 0) from by simp)]
  rw [c1_flat]
  rw [c1_keys]
  rw [show (v0 :: v1 :: vs).map (fun _ => "num") =
    "num" :: ((v1 :: vs).map (fun _ : Int => "num")) from rfl]
  rw [show dedupAux [] ("num" :: ((v1 :: vs).map (fun _ : Int => "num"))) =
    "num" :: dedupAux ["num"] ((v1 :: vs).map (fun _ : Int => "num")) from by
      rw [dedupAux, if_neg (by decide)]]
  rw [c1_dedup_tail]
  rw [show insSort strLe ["num"] = ["num"] from rfl]
  rw [if_pos (show 1 < ((v0 :: v1 :: vs).map mkNum).length from by
    simp only [List.length_map, List.length_cons]; omega)]
  rw [c1_constSplit v0 v1 vs h01]
  simp only [List.map_cons, List.map_nil]
  rw [show colKindSeq "num" ([("num", GoVal.vInt v0)] :: [("num", GoVal.vInt v1)] ::
    List.map (fun v => [("num", GoVal.vInt v)]) vs) = (GoKind.kInt, false) from
    c1_kind v0 (v1 :: vs)]
  rw [show ((GoKind.kInt, false)).1 = GoKind.kInt from rfl]
  rw [show ((GoKind.kInt, false)).2 = false from rfl]
  rw [show ∀ (values uniq : List String) (len : Nat),
      decideCol GoKind.kInt false values uniq len = (⟨"i", false, [], false⟩ : ColSpec) from
    fun _ _ _ => rfl]
  rw [show List.foldl (fun x1 x2 => x1 ++ x2) ""
      ((joinSp (rowTokens [("num", GoVal.vInt v0)]
          [("num", GoKind.kInt, (⟨"i", false, [], false⟩ : ColSpec))]) ++ "\n") ::
        (joinSp (rowTokens [("num", GoVal.vInt v1)]
          [("num", GoKind.kInt, (⟨"i", false, [], false⟩ : ColSpec))]) ++ "\n") ::
        List.map (fun row => joinSp (rowTokens row
          [("num", GoKind.kInt, (⟨"i", false, [], false⟩ : ColSpec))]) ++ "\n")
          (List.map (fun v => [("num", GoVal.vInt v)]) vs)) =
      (⟨((v0 :: v1 :: vs).map (fun v => (intToDecimal v).data ++ ['\n'])).flatten⟩ : String) from by
    show ((((v0 :: v1 :: vs).map (fun v => [("num", GoVal.vInt v)])).map
      (fun row => joinSp (rowTokens row
        [("num", GoKind.kInt, (⟨"i", false, [], false⟩ : ColSpec))]) ++ "\n")).foldl
          (· ++ ·) "") = _
    rw [c1_rows (v0 :: v1 :: vs), c1_datafold (v0 :: v1 :: vs)]]
  rfl

/-- The header descriptor produced for `num:i`. -/
def numHF : HeaderField :=
  { name := "num", typ := "i", val := "", indexed := false, options := [] }

theorem c1_findHeader (rest : List String) :
    findHeaderLoop ("# num:i" :: rest) [] = .ok ([], "# num:i", rest) := rfl

theorem c1_tokens :
    parseHeaderTokens [] (goFields ⟨("# num:i" : String).data.drop 2⟩) (-1) [] [] =
      ((-1 : Int), [numHF], []) := rfl

theorem c1_setField (f : Nat) (val : String) (hne : val ≠ "~")
    (hnb : goHasPfx val "\x7b" = false) :
    setField (f + 1) tNum (zeroVal tNum) "num" "i" val =
      .ok (mkNum (goAtoi val).1) := by
  have hpp : parsePrimitive val "i" = .pint (goAtoi val).1 := by
    rw [parsePrimitive, if_neg hne]
    rfl
  show (if goHasPfx val "\x7b" = true then _ else _) = _
  rw [hnb, if_neg Bool.false_ne_true, hpp]
  rfl

theorem c1_headers_step (f : Nat) (v : Int) (a : Nat)
    (hlo : minInt64 ≤ v) (hhi : v ≤ maxInt64) :
    applyHeaders (f + 3) tNum (zeroVal tNum) [numHF] [intToDecimal v] a =
      .ok (mkNum v, a) := by
  have hne : intToDecimal v ≠ "~" := intToDecimal_ne_tilde v
  have hav : applyHeaderVal (f + 3) tNum (zeroVal tNum) numHF (intToDecimal v) =
      .ok (mkNum v) := by
    rw [applyHeaderVal, if_neg hne]
    show setField (f + 1) tNum (zeroVal tNum) "num" "i" (intToDecimal v) = _
    rw [c1_setField f (intToDecimal v) hne (intToDecimal_no_brace v),
      goAtoi_intToDecimal v hlo hhi]
  rw [applyHeaders, if_neg (show ¬(numHF.typ = "i+") from by decide)]
  rw [hav]
  rfl

theorem c1_row_step (f : Nat) (v : Int) (a : Nat) (acc : List GoVal)
    (hlo : minInt64 ≤ v) (hhi : v ≤ maxInt64) :
    processRow (f + 3) tNum false [] [numHF] a acc [intToDecimal v] =
      .ok (a, acc ++ [mkNum v]) := by
  have hconst : applyConstants (f + 3) tNum (zeroVal tNum) [] = .ok (zeroVal tNum) := rfl
  simp only [processRow, hconst, c1_headers_step f v a hlo hhi]
  rfl

theorem c1_data_loop (f : Nat) : ∀ (l : List Int) (a : Nat) (acc : List GoVal),
    (∀ v ∈ l, minInt64 ≤ v ∧ v ≤ maxInt64) →
    dataRowsLoop (f + 3) tNum false [] [numHF] (l.map (fun v => intToDecimal v)) a acc =
      .ok (a, acc ++ l.map mkNum) := by
  intro l
  induction l with
  | nil => intro a acc _; simp [dataRowsLoop]
  | cons v rest ih =>
    intro a acc hb
    rw [List.map_cons]
    simp only [dataRowsLoop]
    rw [intToDecimal_trim v]
    rw [if_neg (intToDecimal_ne_blank v)]
    rw [tokenizeRow_intToDecimal v]
    have hv := hb v (List.mem_cons_self v rest)
    simp only [c1_row_step f v a acc hv.1 hv.2]
    rw [ih a (acc ++ [mkNum v]) (fun x hx => hb x (List.mem_cons_of_mem v hx))]
    simp

/-- C1 (amended): `Unmarshal(Marshal(x)) == x` for every array of at least
    two homogeneous flat records over a non-nullable `int64` field (tagged
    `num`) in which some two records differ, with all values within the
    `int64` range. -/
theorem c1_round_trip_amended (v0 v1 : Int) (vs : List Int) (h01 : v0 ≠ v1)
    (hb : ∀ v ∈ v0 :: v1 :: vs, minInt64 ≤ v ∧ v ≤ maxInt64) :
    (goMarshal (.vArr ((v0 :: v1 :: vs).map mkNum))).bind
      (fun doc => goUnmarshal doc (.tSlice tNum) (.vArr [])) =
      .ok (.vArr ((v0 :: v1 :: vs).map mkNum)) := by
  rw [c1_encode v0 v1 vs h01]
  show goUnmarshal (c1doc (v0 :: v1 :: vs)) (.tSlice tNum) (.vArr []) = _
  have hTne : ¬((⟨"# num:i".data ++ c1mid (v0 :: v1 :: vs)⟩ : String) = "") := by
    intro h
    have h2 := congrArg String.data h
    have h0 : ("# num:i".data ++ c1mid (v0 :: v1 :: vs)).head? = some '#' := rfl
    rw [show (⟨"# num:i".data ++ c1mid (v0 :: v1 :: vs)⟩ : String).data =
      "# num:i".data ++ c1mid (v0 :: v1 :: vs) from rfl] at h2
    rw [h2] at h0
    simp at h0
  simp only [goUnmarshal, c1doc_trim (v0 :: v1 :: vs) (by simp)]
  rw [if_neg hTne]
  rw [if_pos (show (goHasPfx (⟨"# num:i".data ++ c1mid (v0 :: v1 :: vs)⟩ : String) "#" ||
    goHasPfx (⟨"# num:i".data ++ c1mid (v0 :: v1 :: vs)⟩ : String) "%") = true from rfl)]
  show (decodeTabular ((c1doc (v0 :: v1 :: vs)).data.length + 16)
    (⟨"# num:i".data ++ c1mid (v0 :: v1 :: vs)⟩ : String) tNum false).map GoVal.vArr = _
  rw [show (c1doc (v0 :: v1 :: vs)).data.length + 16 =
    ((c1doc (v0 :: v1 :: vs)).data.length + 13) + 3 from by omega]
  simp only [decodeTabular]
  rw [show goLines (⟨"# num:i".data ++ c1mid (v0 :: v1 :: vs)⟩ : String) =
    "# num:i" :: (v0 :: v1 :: vs).map (fun v => intToDecimal v) from c1_lines (v0 :: v1 :: vs)]
  simp only [c1_findHeader]
  have htok : parseHeaderTokens []
      (goFields ⟨List.drop 2 ['#', ' ', 'n', 'u', 'm', ':', 'i']⟩) (-1) [] [] =
      ((-1 : Int), [numHF], []) := rfl
  simp only [htok]
  rw [if_neg (show ¬((0 : Int) < -1) from by decide)]
  have hloop := c1_data_loop ((c1doc (v0 :: v1 :: vs)).data.length + 13)
    (v0 :: v1 :: vs) 0 [] hb
  simp only [hloop]
  simp [Except.map]

theorem c1_round_trip_amended_witness :
    (7 : Int) ≠ -3 ∧
    (∀ v ∈ [(7 : Int), -3, 7], minInt64 ≤ v ∧ v ≤ maxInt64) ∧
    (goMarshal (.vArr (([7, -3, 7] : List Int).map mkNum))).bind
      (fun doc => goUnmarshal doc (.tSlice tNum) (.vArr [])) =
      .ok (.vArr (([7, -3, 7] : List Int).map mkNum)) :=
  ⟨by decide, by decide, c1_round_trip_amended 7 (-3) [7] (by decide) (by decide)⟩
